import Mathlib

/-! # seal: a verification development

A shallow embedding of `github.com/davidlazar/seal` (the `cmd/internal/seal`
package and the `seal`, `seal-cat`, `seal-edit`, `seal-keygen`, `seal-pw`
commands) together with theorems about it.

Conventions of the embedding.

* A Go `[]byte` and a Go `string` are both a list of byte values, `Bytes`.
* A Go array `[n]byte` is a byte list of length exactly `n` (`FixedBytes n`).
* A Go function that can `panic` or call `log.Fatal` returns a `Run`.
* Functions of imported packages (`box`, `secretbox`, `curve25519`, `scrypt`,
  `base32`, the Unicode part of `strings.TrimSpace`) are fields of `Lib`;
  what is assumed of them is stated as an explicit hypothesis, never built in.
* Random draws, terminal input and the external editor are inputs.
-/

set_option maxRecDepth 100000

namespace SealPkg

/-! ## Data model -/

/-- A Go byte slice or string: the sequence of its byte values. -/
abbrev Bytes := List Nat

/-- A Go array `[n]byte`. -/
abbrev FixedBytes (n : Nat) := { l : Bytes // l.length = n }

/-- The result of running Go code that may not return normally. -/
inductive Run (α : Type) where
  /-- the function returned `a` -/
  | ret (a : α) : Run α
  /-- a run-time panic, also an explicit `panic(err)` -/
  | panic (msg : String) : Run α
  /-- the process ended in `log.Fatal` or `os.Exit(1)` after printing `msg` -/
  | fatal (msg : Bytes) : Run α
  deriving DecidableEq

/-- The bytes of an ASCII string literal of the source. -/
def ascii (s : String) : Bytes := s.toList.map Char.toNat

/-- Go `copy(dst[:], src)` into a zeroed `[n]byte`: the first `n` bytes of
`src`, zero filled. -/
def copyInto (n : Nat) (src : Bytes) : FixedBytes n :=
  ⟨src.take n ++ List.replicate (n - src.length) 0, by
    simp only [List.length_append, List.length_take, List.length_replicate]; omega⟩

/-! ## Imported packages -/

/-- The functions of imported packages that the code calls. Keys and nonces
are Go arrays, so they carry their length. -/
structure Lib where
  /-- `curve25519.ScalarBaseMult(&dst, in)`: the value stored in `dst` -/
  scalarBaseMult : FixedBytes 32 → FixedBytes 32
  /-- `box.Seal(out, message, nonce, peersPublicKey, privateKey)`: the bytes
  appended to `out` -/
  boxSeal : Bytes → FixedBytes 24 → FixedBytes 32 → FixedBytes 32 → Bytes
  /-- `box.Open(nil, box, nonce, peersPublicKey, privateKey)`: `none` when
  the second result is `false` -/
  boxOpen : Bytes → FixedBytes 24 → FixedBytes 32 → FixedBytes 32 → Option Bytes
  /-- `secretbox.Seal(out, message, nonce, key)`: the bytes appended to `out` -/
  secretboxSeal : Bytes → FixedBytes 24 → FixedBytes 32 → Bytes
  /-- `secretbox.Open(nil, box, nonce, key)` -/
  secretboxOpen : Bytes → FixedBytes 24 → FixedBytes 32 → Option Bytes
  /-- `scrypt.Key(password, salt, N, r, p, keyLen)` -/
  scryptKey : Bytes → Bytes → Nat → Nat → Nat → Nat → Except Bytes Bytes
  /-- `base32.EncodeToString(src)` -/
  b32encode : Bytes → Bytes
  /-- `base32.DecodeString(s)` -/
  b32decode : Bytes → Except Bytes Bytes
  /-- `strings.TrimFunc(s, unicode.IsSpace)`, the slow path of `TrimSpace` -/
  trimFuncSpace : Bytes → Bytes
  /-- `strings.TrimRightFunc(s, unicode.IsSpace)`, the slow path of `TrimSpace` -/
  trimRightFuncSpace : Bytes → Bytes

/-- The constant `secretbox.Overhead` (the Poly1305 tag size). -/
def secretboxOverhead : Nat := 16

/-- The constant `box.Overhead = secretbox.Overhead`. -/
def boxOverhead : Nat := secretboxOverhead

/-- The table `asciiSpace` of package `strings`: tab, newline, vertical tab,
form feed, carriage return, space. -/
def asciiSpace (c : Nat) : Bool :=
  c == 9 || c == 10 || c == 11 || c == 12 || c == 13 || c == 32

/-- Second loop of `strings.TrimSpace`, on the reversed string `s[start:]`:
drops ASCII space from the end. -/
def trimStop (L : Lib) : Bytes → Bytes
  | [] => []
  | c :: rest =>
    if 128 ≤ c then L.trimRightFuncSpace (c :: rest).reverse
    else if asciiSpace c then trimStop L rest
    else (c :: rest).reverse

/-- Go `strings.TrimSpace(s)`: the ASCII fast path, with the fall back to the
Unicode-aware functions when a byte `>= utf8.RuneSelf` is met at either end. -/
def TrimSpace (L : Lib) : Bytes → Bytes
  | [] => []
  | c :: rest =>
    if 128 ≤ c then L.trimFuncSpace (c :: rest)
    else if asciiSpace c then TrimSpace L rest
    else trimStop L (c :: rest).reverse

/-- Go `bytes.Index(s, sep)`: the index of the first instance of `sep` in
`s`; `none` stands for `-1`. -/
def Index : Bytes → Bytes → Option Nat
  | [], sep => if sep = [] then some 0 else none
  | c :: s, sep =>
    if sep.isPrefixOf (c :: s) then some 0
    else (Index s sep).map (· + 1)

/-- Decimal text of a number, the `%d` verb of package `fmt`. -/
def fmtD (n : Nat) : Bytes := ascii (toString n)

/-! ## cmd/internal/seal -/

/-- Go `DeriveKey(passphrase []byte) []byte`. -/
def DeriveKey (L : Lib) (passphrase : Bytes) : Run Bytes :=
  match L.scryptKey passphrase (ascii "seal") (2 <<< 15) 8 1 32 with
  | Except.error err => Run.panic (String.mk (err.map Char.ofNat))
  | Except.ok dk => Run.ret dk

def ciphertextVersion : Nat := 1

def zeroNonce : FixedBytes 24 := ⟨List.replicate 24 0, by simp⟩

/-- Go `Seal(publicKey *[32]byte, msg []byte) []byte`. `fresh` is the result
of `box.GenerateKey(rand.Reader)` in this call. -/
def Seal (L : Lib) (fresh : Except String (FixedBytes 32 × FixedBytes 32))
    (publicKey : FixedBytes 32) (msg : Bytes) : Run Bytes :=
  match fresh with
  | Except.error err => Run.panic err
  | Except.ok (freshPublicKey, freshPrivateKey) =>
    let ctxt : Bytes := []
    let ctxt := ctxt ++ [ciphertextVersion]
    let ctxt := ctxt ++ freshPublicKey.val
    let ctxt := ctxt ++ L.boxSeal msg zeroNonce publicKey freshPrivateKey
    Run.ret (L.b32encode ctxt ++ ascii "\n")

/-- Go `Open(privateKey *[32]byte, ctxt []byte) ([]byte, error)`. The pointer
`privateKey` is `none` when nil. The slice expression `data[0:32]` is checked
against the capacity and `data[32:]` against the length of `data`, so with
fewer than 32 bytes left one of the two panics. -/
def Open (L : Lib) (privateKey : Option (FixedBytes 32)) (ctxt : Bytes) :
    Run (Except Bytes Bytes) :=
  match L.b32decode (TrimSpace L ctxt) with
  | Except.error err => Run.ret (Except.error (ascii "base32 decoding error: " ++ err))
  | Except.ok data =>
    match data with
    | [] => Run.panic "index out of range [0] with length 0"
    | v :: data =>
      if v ≠ ciphertextVersion then
        Run.ret (Except.error (ascii "unknown ciphertext version: got " ++ fmtD v
          ++ ascii ", want " ++ fmtD ciphertextVersion))
      else if data.length < 32 then Run.panic "slice bounds out of range"
      else
        let publicKey := copyInto 32 (data.take 32)
        match privateKey with
        | none => Run.panic "invalid memory address or nil pointer dereference"
        | some privateKey =>
          match L.boxOpen (data.drop 32) zeroNonce publicKey privateKey with
          | none => Run.ret (Except.error (ascii "decryption failed"))
          | some msg => Run.ret (Except.ok msg)

/-- Go `PublicKey(privateKey *[32]byte) *[32]byte`. -/
def PublicKey (L : Lib) (privateKey : FixedBytes 32) : FixedBytes 32 :=
  L.scalarBaseMult privateKey

def nonceOverhead : Nat := 24

/-- The passphrase loop of `ReadPrivateKey`. `tty` holds the successive
results of `terminal.ReadPassword(0)`; `none` when they are used up while the
loop is still prompting. The prompts written to the error stream are left out. -/
def unlockLoop (L : Lib) (nonce : FixedBytes 24) (ctxt : Bytes) :
    List (Except Bytes Bytes) → Option (Run (FixedBytes 32))
  | [] => none
  | Except.error err :: _ => some (Run.fatal (ascii "terminal.ReadPassword: " ++ err))
  | Except.ok pw :: rest =>
    match DeriveKey L pw with
    | Run.panic e => some (Run.panic e)
    | Run.fatal e => some (Run.fatal e)
    | Run.ret dk =>
      let boxKey := copyInto 32 dk
      match L.secretboxOpen ctxt nonce boxKey with
      | some msg => some (Run.ret (copyInto 32 msg))
      | none => unlockLoop L nonce ctxt rest

/-- Go `ReadPrivateKey(path string) (name string, privateKey *[32]byte)`,
from the point where the key file has been located: `keyFile` is the path
found by `findKeyFile`, `file` the result of `ioutil.ReadFile(keyFile)`. The
name, a function of the path alone, is left out. -/
def ReadPrivateKey (L : Lib) (keyFile : Bytes) (file : Except Bytes Bytes)
    (tty : List (Except Bytes Bytes)) : Option (Run (FixedBytes 32)) :=
  match file with
  | Except.error err => some (Run.fatal err)
  | Except.ok data =>
    match L.b32decode (TrimSpace L data) with
    | Except.error err =>
      some (Run.fatal (ascii "error decoding base32: " ++ keyFile ++ ascii ": " ++ err))
    | Except.ok bs =>
      let expectedSize := nonceOverhead + 32 + secretboxOverhead
      if bs.length ≠ expectedSize then
        some (Run.fatal (ascii "unexpected key length: got " ++ fmtD bs.length
          ++ ascii " bytes, want " ++ fmtD expectedSize))
      else
        let nonce := copyInto 24 (bs.take 24)
        let ctxt := bs.drop 24
        unlockLoop L nonce ctxt tty

end SealPkg

open SealPkg

/-! ## The process and its environment -/

/-- An error value of package `os`; `notExist` is what `os.IsNotExist` answers. -/
structure OSError where
  notExist : Bool
  text : Bytes
  deriving DecidableEq

/-- The file system calls the commands make, on a file system state `F`. -/
structure OS (F : Type) where
  /-- `ioutil.ReadFile(name)` -/
  ReadFile : F → Bytes → Except OSError Bytes
  /-- `ioutil.WriteFile(name, data, 0600)`: the state it leaves and its error -/
  WriteFile : F → Bytes → Bytes → F × Option OSError

/-- What a command has done so far: the file system, the two output streams
and the clipboard. -/
structure World (F : Type) where
  files : F
  stdout : Bytes
  stderr : Bytes
  clipboard : Option Bytes

/-- Go `log.Printf` with the prefix of the command and no flags: the prefix
and the message on the error stream, and a newline unless the message ends in
one. -/
def logPrint {F : Type} (pfx msg : Bytes) (w : World F) : World F :=
  { w with stderr := w.stderr ++ pfx ++ msg
      ++ (if msg.getLast? = some 10 then [] else ascii "\n") }

/-- Go `log.Fatal`: `log.Print` followed by `os.Exit(1)`. -/
def logFatal {F : Type} (pfx msg : Bytes) (w : World F) : World F × Run Unit :=
  (logPrint pfx msg w, Run.fatal msg)

/-! ## seal-cat -/

namespace SealCat

def logPrefix : Bytes := ascii "seal-cat: "

/-- The loop `for _, file := range args` of `main`; `privateKey` is what
`seal.ReadPrivateKey(*keyPath)` returned. -/
def catLoop {F : Type} (L : SealPkg.Lib) (os : OS F) (privateKey : FixedBytes 32) :
    List Bytes → World F → World F × Run Unit
  | [], w => (w, Run.ret ())
  | file :: args, w =>
    match os.ReadFile w.files file with
    | Except.error err => logFatal logPrefix err.text w
    | Except.ok ctxt =>
      match SealPkg.Open L (some privateKey) ctxt with
      | Run.panic e => (w, Run.panic e)
      | Run.fatal e => (w, Run.fatal e)
      | Run.ret (Except.error err) =>
        logFatal logPrefix (ascii "error decrypting " ++ file ++ ascii ": " ++ err) w
      | Run.ret (Except.ok msg) =>
        catLoop L os privateKey args { w with stdout := w.stdout ++ msg }

end SealCat

/-! ## seal-edit -/

namespace SealEdit

def logPrefix : Bytes := ascii "seal-edit: "

def lineSeparator : Bytes := ascii "------------------------ 8< ------------------------\n"

structure templateData where
  Key : Bytes
  KeyName : Bytes
  FileName : Bytes
  LineSeparator : Bytes

/-- The output of `headerTemplate.Execute`: package `text/template` prints
each field as it is, without escaping. -/
def headerTemplate (d : templateData) : Bytes :=
  ascii "# File: " ++ d.FileName ++ ascii "\n# Key: " ++ d.KeyName ++ ascii " (" ++ d.Key
    ++ ascii ")\n# Do not remove the following line.\n" ++ d.LineSeparator

/-- The buffer that `editor` hands to the external editor on standard input:
the header followed by `startContents`. -/
def composeBuffer (L : SealPkg.Lib) (file startContents keyName : Bytes)
    (publicKey : FixedBytes 32) : Bytes :=
  let stdin := headerTemplate
    { Key := L.b32encode publicKey.val, KeyName := keyName, FileName := file,
      LineSeparator := lineSeparator }
  if startContents.length > 0 then stdin ++ startContents else stdin

/-- The part of `editor` after `cmd.Run()`: `data` is what the external
editor wrote to its standard output. -/
def saveEdited {F : Type} (L : SealPkg.Lib) (os : OS F)
    (fresh : Except String (FixedBytes 32 × FixedBytes 32))
    (file keyName : Bytes) (publicKey : FixedBytes 32) (data : Bytes) (w : World F) :
    World F × Run Unit :=
  if data.length = 0 then
    ({ w with stderr := w.stderr ++ ascii "Did not modify " ++ file
        ++ ascii " (quit without save)\n" }, Run.ret ())
  else
    match SealPkg.Index data lineSeparator with
    | none => logFatal logPrefix (ascii "missing line separator") w
    | some ix =>
      let msg := data.drop (ix + lineSeparator.length)
      match SealPkg.Seal L fresh publicKey msg with
      | Run.panic e => (w, Run.panic e)
      | Run.fatal e => (w, Run.fatal e)
      | Run.ret ctxt =>
        match os.WriteFile w.files file ctxt with
        | (files, some err) => logFatal logPrefix err.text { w with files := files }
        | (files, none) =>
          ({ w with files := files, stderr := w.stderr ++ ascii "Wrote " ++ file
              ++ ascii " (encrypted with key " ++ keyName ++ ascii ")\n" }, Run.ret ())

/-- Go `editor(file, startContents, keyName, publicKey)`. `vis` is the
external editor: from its standard input to its standard output, or the
error of `cmd.Run()`. -/
def editor {F : Type} (L : SealPkg.Lib) (os : OS F) (vis : Bytes → Except Bytes Bytes)
    (fresh : Except String (FixedBytes 32 × FixedBytes 32))
    (file startContents keyName : Bytes) (publicKey : FixedBytes 32) (w : World F) :
    World F × Run Unit :=
  match vis (composeBuffer L file startContents keyName publicKey) with
  | Except.error err => logFatal logPrefix err w
  | Except.ok data => saveEdited L os fresh file keyName publicKey data w

/-- Go `getContents(file, privateKey)`; a nil slice is the empty list. -/
def getContents {F : Type} (L : SealPkg.Lib) (os : OS F) (file : Bytes)
    (privateKey : Option (FixedBytes 32)) (w : World F) : World F × Run Bytes :=
  match os.ReadFile w.files file with
  | Except.error err =>
    if err.notExist then (w, Run.ret [])
    else (logPrint logPrefix err.text w, Run.fatal err.text)
  | Except.ok origCtxt =>
    match SealPkg.Open L privateKey origCtxt with
    | Run.panic e => (w, Run.panic e)
    | Run.fatal e => (w, Run.fatal e)
    | Run.ret (Except.error err) =>
      let m := ascii "error decrypting " ++ file ++ ascii ": " ++ err
      (logPrint logPrefix m w, Run.fatal m)
    | Run.ret (Except.ok origContents) => (w, Run.ret origContents)

/-- The second loop of `main`, `for _, file := range args { getContents;
editor }`, with the keys that the lines before it loaded. `fresh i` is the
key pair drawn for the file at position `i`. -/
def editLoop {F : Type} (L : SealPkg.Lib) (os : OS F) (vis : Bytes → Except Bytes Bytes)
    (fresh : Nat → Except String (FixedBytes 32 × FixedBytes 32))
    (keyName : Bytes) (publicKey : FixedBytes 32) (privateKey : Option (FixedBytes 32)) :
    Nat → List Bytes → World F → World F × Run Unit
  | _, [], w => (w, Run.ret ())
  | i, file :: args, w =>
    match getContents L os file privateKey w with
    | (w, Run.panic e) => (w, Run.panic e)
    | (w, Run.fatal e) => (w, Run.fatal e)
    | (w, Run.ret origContent) =>
      match editor L os vis (fresh i) file origContent keyName publicKey w with
      | (w, Run.ret ()) => editLoop L os vis fresh keyName publicKey privateKey (i + 1) args w
      | (w, r) => (w, r)

end SealEdit

/-! ## seal-keygen -/

namespace SealKeygen

/-- The lines of `main` from `box.GenerateKey` on: the contents handed to
`ioutil.WriteFile` for the public key file and for the private key file.
`pw` is what `confirmPassphrase()` returned, `gen` the result of
`box.GenerateKey(rand.Reader)`, `rnd` the nonce that `rand.Read(nonce[:])`
filled in, or its error. -/
def keyFiles (L : Lib) (pw : Bytes)
    (gen : Except String (FixedBytes 32 × FixedBytes 32))
    (rnd : Except String (FixedBytes 24)) : Run (Bytes × Bytes) :=
  match gen with
  | Except.error err => Run.panic err
  | Except.ok (publicKey, privateKey) =>
    match DeriveKey L pw with
    | Run.panic e => Run.panic e
    | Run.fatal e => Run.fatal e
    | Run.ret dk =>
      let boxKey := copyInto 32 dk
      match rnd with
      | Except.error err => Run.panic err
      | Except.ok nonce =>
        let msg := privateKey.val
        let ctxt := nonce.val ++ L.secretboxSeal msg nonce boxKey
        Run.ret (L.b32encode publicKey.val ++ ascii "\n", L.b32encode ctxt ++ ascii "\n")

end SealKeygen

/-! ## seal-pw -/

namespace SealPw

def logPrefix : Bytes := ascii "seal-pw: "


/-- The body of the inner loop of `genPassword` for one random byte `r`:
`if r < 256-m { pw = append(pw, charset[r%len(charset)]) }` with
`m = 256 % len(charset)`; the index appended, if any. -/
def acceptIndex (n r : Nat) : Option (Fin n) :=
  if h : r < 256 - 256 % n then
    some ⟨r % n, Nat.mod_lt _ (Nat.pos_of_ne_zero (by rintro rfl; simp at h))⟩
  else none

/-- The inner loop `for i := 0; i < len(buf) && len(pw) < length; i++`. -/
def genInner (charset : List Char) (length : Nat) : Bytes → List Char → List Char
  | [], pw => pw
  | r :: buf, pw =>
    if pw.length < length then
      match acceptIndex charset.length r with
      | some i => genInner charset length buf (pw ++ [charset.get i])
      | none => genInner charset length buf pw
    else pw

/-- The outer loop `for len(pw) < length` of `genPassword`, run on the
successive results of `rand.Read(buf)`; `none` when the reads given are used
up while the loop is still running. -/
def genOuter (charset : List Char) (length : Nat) :
    List (Except String Bytes) → List Char → Option (Run String)
  | [], pw => if pw.length < length then none else some (Run.ret (String.mk pw))
  | rd :: rest, pw =>
    if pw.length < length then
      match rd with
      | Except.error e => some (Run.panic e)
      | Except.ok buf => genOuter charset length rest (genInner charset length buf pw)
    else some (Run.ret (String.mk pw))

/-- Go `genPassword(charset []rune, length int) string`, for a `length` that
is not negative. `reads` are the buffers that the successive calls of
`rand.Read` fill (256 bytes each in the source), or their errors. -/
def genPassword (charset : List Char) (length : Nat)
    (reads : List (Except String Bytes)) : Option (Run String) :=
  if charset.length = 0 then some (Run.panic "integer divide by zero")
  else genOuter charset length reads []

def longCharset : List Char :=
  "ABCDEFGHIJKLMNOPQRSTUVWXYZabcdefghijklmnopqrstuvwxyz0123456789".toList

def shortCharset : List Char := "abcdefghijklmnopqrstuvwxyz0123456789".toList

/-- Go `utf8.EncodeRune` on a valid rune. -/
def encodeRune (c : Char) : Bytes :=
  let n := c.toNat
  if n < 0x80 then [n]
  else if n < 0x800 then [0xC0 + n / 64, 0x80 + n % 64]
  else if n < 0x10000 then [0xE0 + n / 4096, 0x80 + n / 64 % 64, 0x80 + n % 64]
  else [0xF0 + n / 262144, 0x80 + n / 4096 % 64, 0x80 + n / 64 % 64, 0x80 + n % 64]

/-- The bytes of the Go string `string(pw)` for a rune slice `pw`. -/
def utf8 (s : String) : Bytes := (s.toList.map encodeRune).flatten

def lineSeparator : Bytes := ascii "------------------------ 8< ------------------------\n"

structure templateData where
  Key : Bytes
  KeyName : Bytes
  FileName : Bytes
  LineSeparator : Bytes
  LongPassword : Bytes
  ShortPassword : Bytes

/-- The output of `pwTemplate.Execute`. -/
def pwTemplate (d : templateData) : Bytes :=
  ascii "# File: " ++ d.FileName ++ ascii "\n# Key: " ++ d.KeyName ++ ascii " (" ++ d.Key
    ++ ascii ")\n# Do not remove the following line.\n" ++ d.LineSeparator
    ++ ascii "url:\nusername:\n# Uncomment one of the following randomly generated passwords.\n# clipboard: "
    ++ d.ShortPassword ++ ascii "\n# clipboard: " ++ d.LongPassword ++ ascii "\n"

/-- The part of `createPW` after `cmd.Run()`: `data` is what the external
editor wrote to its standard output. -/
def saveEdited {F : Type} (L : Lib) (os : OS F)
    (fresh : Except String (FixedBytes 32 × FixedBytes 32))
    (file keyName : Bytes) (publicKey : FixedBytes 32) (data : Bytes) (w : World F) :
    World F × Run Unit :=
  if data.length = 0 then
    ({ w with stderr := w.stderr ++ ascii "Did not modify " ++ file
        ++ ascii " (quit without save)\n" }, Run.ret ())
  else
    match Index data lineSeparator with
    | none => logFatal logPrefix (ascii "missing line separator") w
    | some ix =>
      let msg := data.drop (ix + lineSeparator.length)
      match Seal L fresh publicKey msg with
      | Run.panic e => (w, Run.panic e)
      | Run.fatal e => (w, Run.fatal e)
      | Run.ret ctxt =>
        match os.WriteFile w.files file ctxt with
        | (files, some err) => logFatal logPrefix err.text { w with files := files }
        | (files, none) =>
          ({ w with files := files, stderr := w.stderr ++ ascii "Wrote " ++ file
              ++ ascii " (encrypted with key " ++ keyName ++ ascii ")\n" }, Run.ret ())

/-- Go `createPW(file)`. `keyName` and `publicKey` are what
`seal.ReadPublicKey(*keyPath)` returned, `readsLong` and `readsShort` the
random reads of the two calls of `genPassword`, `vis` the external editor. -/
def createPW {F : Type} (L : Lib) (os : OS F) (vis : Bytes → Except Bytes Bytes)
    (readsLong readsShort : List (Except String Bytes))
    (fresh : Except String (FixedBytes 32 × FixedBytes 32))
    (file keyName : Bytes) (publicKey : FixedBytes 32) (w : World F) :
    Option (World F × Run Unit) :=
  match genPassword longCharset 32 readsLong with
  | none => none
  | some (Run.panic e) => some (w, Run.panic e)
  | some (Run.fatal e) => some (w, Run.fatal e)
  | some (Run.ret long) =>
    match genPassword shortCharset 16 readsShort with
    | none => none
    | some (Run.panic e) => some (w, Run.panic e)
    | some (Run.fatal e) => some (w, Run.fatal e)
    | some (Run.ret short) =>
      let stdin := pwTemplate
        { Key := L.b32encode publicKey.val, KeyName := keyName, FileName := file,
          LineSeparator := lineSeparator, LongPassword := utf8 long,
          ShortPassword := utf8 short }
      match vis stdin with
      | Except.error err => some (logFatal logPrefix err w)
      | Except.ok data => some (saveEdited L os fresh file keyName publicKey data w)

/-- The lines of `data` as `bufio.ScanLines` cuts them, before the carriage
return is dropped; `cur` is the line being read. -/
def splitLines : Bytes → Bytes → List Bytes
  | [], cur => if cur = [] then [] else [cur]
  | c :: rest, cur => if c = 10 then cur :: splitLines rest [] else splitLines rest (cur ++ [c])

/-- The function `dropCR` of package `bufio`. -/
def dropCR (line : Bytes) : Bytes :=
  if line.getLast? = some 13 then line.dropLast else line

/-- The tokens that `scanner.Scan()` yields on `msg`: a `bufio.Scanner`
stops at the first line that does not fit its buffer of 64 KiB. -/
def scanLines (msg : Bytes) : List Bytes :=
  ((splitLines msg []).takeWhile (fun l => l.length < 64 * 1024)).map dropCR

/-- Go `strings.HasPrefix`. -/
def HasPrefix (s pfx : Bytes) : Bool := pfx.isPrefixOf s

/-- The loop `for scanner.Scan()` of `readPW`. -/
def scanPW {F : Type} (L : Lib) : List Bytes → Option Bytes → World F → World F × Option Bytes
  | [], clip, w => (w, clip)
  | line :: rest, clip, w =>
    if clip = none ∧ HasPrefix line (ascii "clipboard: ") = true then
      scanPW L rest (some (TrimSpace L (line.drop (ascii "clipboard: ").length))) w
    else scanPW L rest clip { w with stdout := w.stdout ++ line ++ ascii "\n" }

/-- Go `readPW(file)`; `privateKey` is what `seal.ReadPrivateKey(*keyPath)`
returned. -/
def readPW {F : Type} (L : Lib) (os : OS F) (privateKey : FixedBytes 32) (file : Bytes)
    (w : World F) : World F × Run Unit :=
  match os.ReadFile w.files file with
  | Except.error err => logFatal logPrefix err.text w
  | Except.ok ctxt =>
    match Open L (some privateKey) ctxt with
    | Run.panic e => (w, Run.panic e)
    | Run.fatal e => (w, Run.fatal e)
    | Run.ret res =>
      let wm : World F × Bytes :=
        match res with
        | Except.error err =>
          (logPrint logPrefix (ascii "error decrypting " ++ file ++ ascii ": " ++ err) w, [])
        | Except.ok msg => (w, msg)
      match scanPW L (scanLines wm.2) none wm.1 with
      | (w, some clip) =>
        ({ w with stderr := w.stderr ++ ascii "Password copied to clipboard for 10 seconds.\n",
                  clipboard := some clip }, Run.ret ())
      | (w, none) => (w, Run.ret ())

/-- The loop of `main` that acts like `cat` with several arguments;
`privateKey` is what `seal.ReadPrivateKey(*keyPath)` returned. -/
def catLoop {F : Type} (L : Lib) (os : OS F) (privateKey : FixedBytes 32) :
    List Bytes → World F → World F × Run Unit
  | [], w => (w, Run.ret ())
  | file :: args, w =>
    match os.ReadFile w.files file with
    | Except.error err => logFatal logPrefix err.text w
    | Except.ok ctxt =>
      match Open L (some privateKey) ctxt with
      | Run.panic e => (w, Run.panic e)
      | Run.fatal e => (w, Run.fatal e)
      | Run.ret res =>
        let wm : World F × Bytes :=
          match res with
          | Except.error err =>
            (logPrint logPrefix (ascii "error decrypting " ++ file ++ ascii ": " ++ err) w, [])
          | Except.ok msg => (w, msg)
        catLoop L os privateKey args
          { wm.1 with stdout := wm.1.stdout ++ ascii "\n" ++ wm.2 }

end SealPw


/-! ## What is assumed of the imported packages

Each is a property of a `Lib`, taken as a hypothesis by the theorems that
need it. -/

namespace SealPkg

/-- `box.Open` opens what `box.Seal` sealed when each side uses its own
private key and the public key of the other (`curve25519.ScalarBaseMult` of
the other private key), under the same nonce. -/
def BoxOpensSealed (L : Lib) : Prop :=
  ∀ (msg : Bytes) (nonce : FixedBytes 24) (recipient sender : FixedBytes 32),
    L.boxOpen (L.boxSeal msg nonce (L.scalarBaseMult recipient) sender) nonce
      (L.scalarBaseMult sender) recipient = some msg

/-- `box.Seal` appends `len(message) + box.Overhead` bytes. -/
def BoxAddsOverhead (L : Lib) : Prop :=
  ∀ (msg : Bytes) (nonce : FixedBytes 24) (pk sk : FixedBytes 32),
    (L.boxSeal msg nonce pk sk).length = msg.length + boxOverhead

/-- `secretbox.Open` opens what `secretbox.Seal` sealed under the same key and
nonce. -/
def SecretboxOpensSealed (L : Lib) : Prop :=
  ∀ (msg : Bytes) (nonce : FixedBytes 24) (key : FixedBytes 32),
    L.secretboxOpen (L.secretboxSeal msg nonce key) nonce key = some msg

/-- `secretbox.Seal` appends `len(message) + secretbox.Overhead` bytes. -/
def SecretboxAddsOverhead (L : Lib) : Prop :=
  ∀ (msg : Bytes) (nonce : FixedBytes 24) (key : FixedBytes 32),
    (L.secretboxSeal msg nonce key).length = msg.length + secretboxOverhead

/-- `base32.DecodeString` undoes `base32.EncodeToString`. -/
def Base32RoundTrip (L : Lib) : Prop :=
  ∀ x : Bytes, L.b32decode (L.b32encode x) = Except.ok x

/-- The text made by `base32.EncodeToString` is made of ASCII characters that
are not white space. -/
def Base32Alphabet (L : Lib) : Prop :=
  ∀ x : Bytes, ∀ c ∈ L.b32encode x, c < 128 ∧ asciiSpace c = false

/-- The parameter check at the head of `scrypt.Key`, with `maxInt` of a 64-bit
platform. -/
def scryptParamsOK (N r p : Nat) : Bool :=
  let maxInt := 2 ^ 63 - 1
  !(N ≤ 1 || N &&& (N - 1) != 0) &&
  !(r * p ≥ 2 ^ 30 || r > maxInt / 128 / p || r > maxInt / 256 || N > maxInt / 128 / r)

/-- `scrypt.Key` returns `keyLen` bytes and no error on parameters that pass
its check. -/
def ScryptReturnsKey (L : Lib) : Prop :=
  ∀ (password salt : Bytes) (N r p keyLen : Nat), scryptParamsOK N r p = true →
    ∃ dk, L.scryptKey password salt N r p keyLen = Except.ok dk ∧ dk.length = keyLen

/-! ### A library to instantiate the assumptions

It is no cryptography: it only shows that the assumptions can be met
together, and lets the code be run on concrete inputs. -/

/-- Unary text code: the byte `b` is `b` letters `A` and one `B`. -/
def exampleEncode : Bytes → Bytes
  | [] => []
  | b :: rest => List.replicate b 65 ++ 66 :: exampleEncode rest

/-- Decoder of `exampleEncode`; `n` counts the letters `A` read so far. -/
def exampleDecode : Bytes → Nat → Except Bytes Bytes
  | [], n => if n = 0 then Except.ok [] else Except.error (ascii "truncated input")
  | c :: rest, n =>
    if c = 65 then exampleDecode rest (n + 1)
    else if c = 66 then
      match exampleDecode rest 0 with
      | Except.ok bs => Except.ok (n :: bs)
      | Except.error e => Except.error e
    else Except.error (ascii "illegal character")

def exampleLib : Lib where
  scalarBaseMult := id
  boxSeal := fun msg _ _ _ => List.replicate boxOverhead 0 ++ msg
  boxOpen := fun box _ _ _ => if boxOverhead ≤ box.length then some (box.drop boxOverhead) else none
  secretboxSeal := fun msg _ _ => List.replicate secretboxOverhead 0 ++ msg
  secretboxOpen := fun box _ _ =>
    if secretboxOverhead ≤ box.length then some (box.drop secretboxOverhead) else none
  scryptKey := fun _ _ _ _ _ keyLen => Except.ok (List.replicate keyLen 0)
  b32encode := exampleEncode
  b32decode := fun s => exampleDecode s 0
  trimFuncSpace := id
  trimRightFuncSpace := id

/-- The all-zero 32-byte array, used as a concrete key. -/
def zeroKey : FixedBytes 32 := ⟨List.replicate 32 0, by simp⟩

/-- A library whose `scrypt.Key` returns the parameters it was called with. -/
def recordingLib : Lib :=
  { exampleLib with
    scryptKey := fun _ salt N r p keyLen => Except.ok (salt ++ [N, r, p, keyLen]) }

end SealPkg

/-! ## A file system to run the commands on -/

/-- A file system as a list of named files; writing replaces the file of that
name or adds it, and never fails. -/
def exampleOS : OS (List (Bytes × Bytes)) where
  ReadFile := fun fs name =>
    match fs.lookup name with
    | some data => Except.ok data
    | none => Except.error { notExist := true, text := ascii "no such file or directory" }
  WriteFile := fun fs name data => ((name, data) :: fs.filter (fun f => f.1 != name), none)

/-- The state in which a command starts on the example file system `fs`. -/
def startWorld (fs : List (Bytes × Bytes)) : World (List (Bytes × Bytes)) :=
  { files := fs, stdout := [], stderr := [], clipboard := none }

/-- An envelope that does not open: version byte 1, an ephemeral key and an
empty box, in the text code of the example library. -/
def brokenEnvelope : Bytes := exampleLib.b32encode (1 :: List.replicate 32 0) ++ [10]

/-- An envelope of the example library for the message `hi` and a newline. -/
def helloEnvelope : Bytes :=
  exampleLib.b32encode (1 :: (zeroKey.val ++ exampleLib.boxSeal [104, 105, 10] zeroNonce
    zeroKey zeroKey)) ++ [10]

/-- Two files: `a` holds the broken envelope, `b` the good one. -/
def exampleFiles : List (Bytes × Bytes) := [([97], brokenEnvelope), ([98], helloEnvelope)]

/-! ## Specification-level definitions -/

/-- Specification of the edit and password-creation flows, in the words of the
description, with the editor as a function: `returned` is what the editor gave
back for the composed buffer (or its failure), `w` the state before and `res`
the state after and the way the flow ended. The file system is left as it was
when the editor failed, when the returned buffer is empty (no error) and when
it is not empty but holds no separator line (fatal, "missing line separator");
when the first separator line starts at `i`, the file system is what
`WriteFile` makes of it with the target file and `Seal` of the bytes after
that line, and the flow ends well exactly when the write does. -/
def WritePolicy {F : Type} (L : Lib) (os : OS F)
    (fresh : Except String (FixedBytes 32 × FixedBytes 32)) (file : Bytes)
    (publicKey : FixedBytes 32) (sep : Bytes) (returned : Except Bytes Bytes)
    (w : World F) (res : World F × Run Unit) : Prop :=
  match returned with
  | Except.error err => res.1.files = w.files ∧ res.2 = Run.fatal err
  | Except.ok data =>
    (data = [] → res.1.files = w.files ∧ res.2 = Run.ret ()) ∧
    (data ≠ [] → (∀ i, sep.isPrefixOf (data.drop i) = false) →
      res.1.files = w.files ∧ res.2 = Run.fatal (ascii "missing line separator")) ∧
    (data ≠ [] → ∀ i, sep.isPrefixOf (data.drop i) = true →
      (∀ j, j < i → sep.isPrefixOf (data.drop j) = false) →
      (∀ ctxt, Seal L fresh publicKey (data.drop (i + sep.length)) = Run.ret ctxt →
        res.1.files = (os.WriteFile w.files file ctxt).1 ∧
        (res.2 = Run.ret () ↔ (os.WriteFile w.files file ctxt).2 = none)) ∧
      (∀ msg, Seal L fresh publicKey (data.drop (i + sep.length)) = Run.panic msg →
        res.1.files = w.files ∧ res.2 = Run.panic msg))

namespace SealPw

/-- Specification of the password generator, in the words of the description:
the accepted bytes of a stream (`v < 256 - 256 mod |charset|`) mapped through
`charset[v mod |charset|]`, in stream order. -/
def acceptedSymbols (charset : List Char) (stream : Bytes) : List Char :=
  (stream.filter (fun v => decide (v < 256 - 256 % charset.length))).filterMap
    (fun v => charset[v % charset.length]?)

/-- A charset of 257 distinct symbols, the code points 0 to 256. -/
def wideCharset : List Char := (List.range 257).map Char.ofNat

end SealPw

/-! # Theorems -/

/-! ## The password generator -/

namespace SealPw

theorem accept_bound (n : Nat) : 256 - 256 % n = n * (256 / n) := by
  have := Nat.div_add_mod 256 n
  omega

theorem acceptIndex_eq_some_iff (n r : Nat) (j : Fin n) :
    acceptIndex n r = some j ↔ r < 256 - 256 % n ∧ r % n = j.val := by
  unfold acceptIndex
  split
  · rename_i h
    simp only [Option.some.injEq, h, true_and]
    constructor
    · intro e; rw [← e]
    · intro e; exact Fin.ext e
  · rename_i h
    simp [h]

theorem acceptIndex_eq_none_iff (n r : Nat) :
    acceptIndex n r = none ↔ 256 - 256 % n ≤ r := by
  unfold acceptIndex
  split
  · rename_i h; simp; omega
  · rename_i h; simp; omega

theorem count_accepted (n : Nat) (hn : 0 < n) (j : Fin n) :
    ((Finset.range 256).filter (fun v => acceptIndex n v = some j)).card = 256 / n := by
  have hfilter : (Finset.range 256).filter (fun v => acceptIndex n v = some j)
      = (Finset.range (n * (256 / n))).filter (fun v => v ≡ j.val [MOD n]) := by
    ext v
    simp only [Finset.mem_filter, Finset.mem_range, acceptIndex_eq_some_iff, accept_bound,
      Nat.ModEq, Nat.mod_eq_of_lt j.isLt]
    have := Nat.mul_div_le 256 n
    constructor
    · rintro ⟨_, h1, h2⟩; exact ⟨h1, h2⟩
    · rintro ⟨h1, h2⟩; exact ⟨by omega, h1, h2⟩
  rw [hfilter, ← Nat.count_eq_card_filter_range, Nat.count_modEq_card _ hn]
  simp [Nat.mul_div_cancel_left _ hn]

end SealPw

namespace SealPw

theorem genInner_accept (charset : List Char) (length v : Nat) (buf : Bytes) (pw : List Char)
    (hpw : pw.length < length) (hv : v < 256 - 256 % charset.length) :
    ∃ c, charset[v % charset.length]? = some c ∧
      genInner charset length (v :: buf) pw = genInner charset length buf (pw ++ [c]) := by
  have hn : 0 < charset.length := by
    rcases Nat.eq_zero_or_pos charset.length with h | h
    · rw [h] at hv; simp at hv
    · exact h
  have hlt : v % charset.length < charset.length := Nat.mod_lt _ hn
  refine ⟨charset.get ⟨v % charset.length, hlt⟩, ?_, ?_⟩
  · simp [List.getElem?_eq_getElem hlt]
  · have hacc : acceptIndex charset.length v = some ⟨v % charset.length, hlt⟩ := by
      rw [acceptIndex_eq_some_iff]; exact ⟨hv, rfl⟩
    simp only [genInner, hpw, if_true, hacc]

theorem genInner_reject (charset : List Char) (length v : Nat) (buf : Bytes) (pw : List Char)
    (hv : 256 - 256 % charset.length ≤ v) :
    genInner charset length (v :: buf) pw = genInner charset length buf pw := by
  have hrej : acceptIndex charset.length v = none := (acceptIndex_eq_none_iff _ _).2 hv
  by_cases hpw : pw.length < length
  · simp only [genInner, hpw, if_true, hrej]
  · cases buf <;> simp [genInner, hpw]

end SealPw

namespace SealPw

theorem acceptedSymbols_nil (charset : List Char) : acceptedSymbols charset [] = [] := rfl

theorem acceptedSymbols_cons_accept (charset : List Char) (v : Nat) (buf : Bytes) (c : Char)
    (hv : v < 256 - 256 % charset.length) (hc : charset[v % charset.length]? = some c) :
    acceptedSymbols charset (v :: buf) = c :: acceptedSymbols charset buf := by
  simp [acceptedSymbols, hv, hc]

theorem acceptedSymbols_cons_reject (charset : List Char) (v : Nat) (buf : Bytes)
    (hv : 256 - 256 % charset.length ≤ v) :
    acceptedSymbols charset (v :: buf) = acceptedSymbols charset buf := by
  have : ¬ v < 256 - 256 % charset.length := by omega
  simp [acceptedSymbols, this]

theorem acceptedSymbols_append (charset : List Char) (s t : Bytes) :
    acceptedSymbols charset (s ++ t) = acceptedSymbols charset s ++ acceptedSymbols charset t := by
  simp [acceptedSymbols]

theorem acceptedSymbols_mem (charset : List Char) (stream : Bytes) :
    ∀ c ∈ acceptedSymbols charset stream, c ∈ charset := by
  intro c hc
  simp only [acceptedSymbols, List.mem_filterMap] at hc
  obtain ⟨v, _, hv⟩ := hc
  obtain ⟨h, rfl⟩ := List.getElem?_eq_some_iff.1 hv
  exact List.getElem_mem _

/-- The inner loop computes the first `length` symbols of what was accepted so
far followed by the accepted symbols of the buffer. -/
theorem genInner_eq (charset : List Char) (length : Nat) (buf : Bytes) :
    ∀ pw : List Char, pw.length ≤ length →
      genInner charset length buf pw = (pw ++ acceptedSymbols charset buf).take length := by
  induction buf with
  | nil =>
    intro pw hpw
    simp [genInner, acceptedSymbols_nil, List.take_of_length_le hpw]
  | cons v buf ih =>
    intro pw hpw
    by_cases hfull : pw.length < length
    · by_cases hv : v < 256 - 256 % charset.length
      · obtain ⟨c, hc, hstep⟩ := genInner_accept charset length v buf pw hfull hv
        rw [hstep, ih (pw ++ [c]) (by simp; omega),
          acceptedSymbols_cons_accept charset v buf c hv hc]
        simp
      · have hv2 : 256 - 256 % charset.length ≤ v := by omega
        rw [genInner_reject charset length v buf pw hv2, ih pw hpw,
          acceptedSymbols_cons_reject charset v buf hv2]
    · have hlen : pw.length = length := by omega
      have h1 : genInner charset length (v :: buf) pw = pw := by simp [genInner, hfull]
      rw [h1, List.take_append_of_le_length (by omega), List.take_of_length_le (by omega)]

/-- The outer loop on reads that all succeed. -/
theorem genOuter_eq (charset : List Char) (length : Nat) (bufs : List Bytes) :
    ∀ pw : List Char, pw.length ≤ length →
      genOuter charset length (bufs.map Except.ok) pw =
        if length ≤ (pw ++ acceptedSymbols charset bufs.flatten).length then
          some (Run.ret (String.mk ((pw ++ acceptedSymbols charset bufs.flatten).take length)))
        else none := by
  induction bufs with
  | nil =>
    intro pw hpw
    by_cases hfull : pw.length < length
    · have : ¬ length ≤ pw.length := by omega
      simp [genOuter, hfull, acceptedSymbols_nil, this]
    · have hlen : length ≤ pw.length := by omega
      simp [genOuter, hfull, acceptedSymbols_nil, hlen, List.take_of_length_le hpw]
  | cons buf bufs ih =>
    intro pw hpw
    by_cases hfull : pw.length < length
    · have hstep : genOuter charset length ((buf :: bufs).map Except.ok) pw
          = genOuter charset length (bufs.map Except.ok) (genInner charset length buf pw) := by
        simp [genOuter, hfull]
      have hin := genInner_eq charset length buf pw hpw
      have hinlen : (genInner charset length buf pw).length ≤ length := by
        rw [hin]; simp
      rw [hstep, ih _ hinlen, hin, List.flatten_cons, acceptedSymbols_append]
      by_cases henough : length ≤ (pw ++ acceptedSymbols charset buf).length
      · have e1 : (pw ++ acceptedSymbols charset buf).take length
              ++ acceptedSymbols charset bufs.flatten
            = (pw ++ acceptedSymbols charset buf).take length
              ++ acceptedSymbols charset bufs.flatten := rfl
        have hl1 : ((pw ++ acceptedSymbols charset buf).take length).length = length := by
          simp; simpa using henough
        have hc1 : length ≤ (List.take length (pw ++ acceptedSymbols charset buf)
            ++ acceptedSymbols charset bufs.flatten).length := by
          rw [List.length_append, hl1]; omega
        have hc2 : length ≤ (pw ++ (acceptedSymbols charset buf
            ++ acceptedSymbols charset bufs.flatten)).length := by
          rw [← List.append_assoc, List.length_append]; omega
        rw [if_pos hc1, if_pos hc2, ← List.append_assoc,
          List.take_append_of_le_length (by omega : length ≤ _),
          List.take_append_of_le_length henough, List.take_of_length_le (by omega)]
      · have hshort : (pw ++ acceptedSymbols charset buf).length < length := by omega
        rw [List.take_of_length_le (by omega), List.append_assoc]
    · have hlen : pw.length = length := by omega
      have hc : length ≤ (pw ++ acceptedSymbols charset (buf :: bufs).flatten).length := by
        rw [List.length_append]; omega
      rw [if_pos hc, List.take_append_of_le_length (by omega), List.take_of_length_le (by omega)]
      simp [genOuter, hfull]

end SealPw

namespace SealPw

theorem genInner_wide (charset : List Char) (length : Nat) (hwide : 256 < charset.length)
    (buf : Bytes) (pw : List Char) : genInner charset length buf pw = pw := by
  induction buf with
  | nil => simp [genInner]
  | cons v buf ih =>
    have hm : 256 % charset.length = 256 := Nat.mod_eq_of_lt hwide
    rw [genInner_reject charset length v buf pw (by omega), ih]

theorem genOuter_wide (charset : List Char) (length : Nat) (hwide : 256 < charset.length)
    (reads : List (Except String Bytes)) (pw : List Char) (hpw : pw.length < length)
    (s : String) : genOuter charset length reads pw ≠ some (Run.ret s) := by
  induction reads with
  | nil => simp [genOuter, hpw]
  | cons rd reads ih =>
    cases rd with
    | error e => simp [genOuter, hpw]
    | ok buf =>
      have : genOuter charset length (Except.ok buf :: reads) pw
          = genOuter charset length reads pw := by
        simp [genOuter, hpw, genInner_wide charset length hwide]
      rw [this]; exact ih

theorem acceptedSymbols_wide (charset : List Char) (hwide : 256 < charset.length)
    (stream : Bytes) : acceptedSymbols charset stream = [] := by
  have hm : 256 % charset.length = 256 := Nat.mod_eq_of_lt hwide
  simp [acceptedSymbols, hm]

/-- C4, as stated, fails on a charset of 257 symbols: whatever the random
reads, `genPassword` asked for one symbol never returns a string. -/
theorem genPassword_wide_charset_never_returns :
    wideCharset ≠ [] ∧
    ¬ ∃ (reads : List (Except String Bytes)) (s : String),
      genPassword wideCharset 1 reads = some (Run.ret s) := by
  have hlen : wideCharset.length = 257 := by simp [wideCharset]
  refine ⟨by intro h; rw [h] at hlen; simp at hlen, ?_⟩
  rintro ⟨reads, s, h⟩
  have hne : ¬ wideCharset.length = 0 := by omega
  rw [genPassword, if_neg hne] at h
  exact genOuter_wide wideCharset 1 (by omega) reads [] (by simp) s h

/-- C4, amended. For a non-empty charset and every length, `genPassword` run
on random reads that all succeed returns exactly when the stream read holds at
least `length` accepted bytes, and then returns the first `length` accepted
bytes mapped through `charset[v mod |charset|]` in stream order, whatever
follows them in the stream: a string of exactly `length` symbols, all from
the charset. A positive `length` can be reached only with at most 256 symbols
in the charset. -/
theorem genPassword_first_accepted (charset : List Char) (length : Nat) (bufs : List Bytes)
    (hne : charset ≠ []) :
    genPassword charset length (bufs.map Except.ok) =
      (if length ≤ (acceptedSymbols charset bufs.flatten).length then
        some (Run.ret (String.mk ((acceptedSymbols charset bufs.flatten).take length)))
      else none) ∧
    (length ≤ (acceptedSymbols charset bufs.flatten).length →
      (String.mk ((acceptedSymbols charset bufs.flatten).take length)).length = length ∧
      (∀ c ∈ (acceptedSymbols charset bufs.flatten).take length, c ∈ charset) ∧
      (0 < length → charset.length ≤ 256)) := by
  constructor
  · have h0 : ¬ charset.length = 0 := by
      intro h; exact hne (List.length_eq_zero.1 h)
    rw [genPassword, if_neg h0, genOuter_eq charset length bufs [] (by simp)]
    simp
  · intro henough
    refine ⟨?_, ?_, ?_⟩
    · show ((acceptedSymbols charset bufs.flatten).take length).length = length
      simp; exact henough
    · intro c hc
      exact acceptedSymbols_mem charset _ c (List.mem_of_mem_take hc)
    · intro hpos
      by_contra hwide
      rw [acceptedSymbols_wide charset (by omega)] at henough
      simp at henough
      omega

/-- Witness of the amended C4: three symbols over `abc` from a stream in which
the byte 255 is rejected and two reads are needed. -/
theorem genPassword_first_accepted_witness :
    ['a', 'b', 'c'] ≠ [] ∧
    genPassword ['a', 'b', 'c'] 3 ([[255, 4, 255], [2, 0, 1]].map Except.ok)
      = some (Run.ret "bca") :=
  ⟨by decide, (genPassword_first_accepted ['a', 'b', 'c'] 3 [[255, 4, 255], [2, 0, 1]]
    (by decide)).1.trans (by decide)⟩

end SealPw

/-! ## The example library meets the assumptions -/

namespace SealPkg

theorem exampleDecode_encode (x : Bytes) : exampleDecode (exampleEncode x) 0 = Except.ok x := by
  induction x with
  | nil => simp [exampleEncode, exampleDecode]
  | cons b rest ih =>
    have hrun : ∀ (k n : Nat), exampleDecode (List.replicate k 65 ++ 66 :: exampleEncode rest) n
        = Except.ok ((n + k) :: rest) := by
      intro k
      induction k with
      | zero => intro n; simp [exampleDecode, ih]
      | succ k ihk =>
        intro n
        rw [List.replicate_succ, List.cons_append]
        simp only [exampleDecode, if_true]
        rw [ihk (n + 1)]
        congr 2; omega
    rw [exampleEncode, hrun b 0, Nat.zero_add]

theorem exampleLib_base32RoundTrip : Base32RoundTrip exampleLib :=
  fun x => exampleDecode_encode x

theorem exampleLib_base32Alphabet : Base32Alphabet exampleLib := by
  intro x
  show ∀ c ∈ exampleEncode x, c < 128 ∧ asciiSpace c = false
  induction x with
  | nil => simp [exampleEncode]
  | cons b rest ih =>
    intro c hc
    simp only [exampleEncode, List.mem_append, List.mem_replicate, List.mem_cons] at hc
    rcases hc with ⟨_, rfl⟩ | rfl | h
    · decide
    · decide
    · exact ih c h

theorem exampleLib_boxOpensSealed : BoxOpensSealed exampleLib := by
  intro msg nonce a b
  simp [exampleLib]

theorem exampleLib_boxAddsOverhead : BoxAddsOverhead exampleLib := by
  intro msg nonce pk sk
  simp [exampleLib]; omega

theorem exampleLib_secretboxOpensSealed : SecretboxOpensSealed exampleLib := by
  intro msg nonce key
  simp [exampleLib]

theorem exampleLib_secretboxAddsOverhead : SecretboxAddsOverhead exampleLib := by
  intro msg nonce key
  simp [exampleLib]; omega

theorem exampleLib_scryptReturnsKey : ScryptReturnsKey exampleLib := by
  intro password salt N r p keyLen _
  exact ⟨List.replicate keyLen 0, rfl, by simp⟩

end SealPkg

/-! ## The envelope -/

namespace SealPkg

theorem ascii_newline : ascii "\n" = [10] := by decide

theorem copyInto_val (n : Nat) (a : FixedBytes n) : copyInto n a.val = a := by
  apply Subtype.ext
  have h := a.property
  simp [copyInto, h]

theorem copyInto_take_append (n : Nat) (a : FixedBytes n) (rest : Bytes) :
    copyInto n ((a.val ++ rest).take n) = a := by
  have h := a.property
  have : (a.val ++ rest).take n = a.val := by
    rw [List.take_append_of_le_length (by omega), List.take_of_length_le (by omega)]
  rw [this, copyInto_val]

theorem drop_append_fixed (n : Nat) (a : FixedBytes n) (rest : Bytes) :
    (a.val ++ rest).drop n = rest := by
  have h := a.property
  rw [List.drop_append_of_le_length (by omega), List.drop_of_length_le (by omega)]
  simp

theorem trimStop_nonspace (L : Lib) (c : Nat) (rest : Bytes)
    (hc : c < 128 ∧ asciiSpace c = false) :
    trimStop L (c :: rest) = (c :: rest).reverse := by
  have h1 : ¬ 128 ≤ c := by omega
  simp [trimStop, h1, hc.2]

/-- White space is trimmed from text of non-space ASCII characters followed by
a newline on the fast path of `TrimSpace`: the result is the text. -/
theorem TrimSpace_text_newline (L : Lib) (s : Bytes)
    (hs : ∀ c ∈ s, c < 128 ∧ asciiSpace c = false) :
    TrimSpace L (s ++ [10]) = s := by
  cases s with
  | nil => simp [TrimSpace, asciiSpace]
  | cons c rest =>
    have hc := hs c (List.mem_cons_self _ _)
    have h1 : ¬ 128 ≤ c := by omega
    have hrev : (c :: (rest ++ [10])).reverse = 10 :: (c :: rest).reverse := by simp
    have hstep : TrimSpace L (c :: rest ++ [10]) = trimStop L ((c :: rest).reverse) := by
      rw [List.cons_append]
      simp only [TrimSpace, h1, if_false, hc.2, hrev]
      simp [trimStop, asciiSpace]
    rw [hstep]
    rcases hrv : (c :: rest).reverse with _ | ⟨d, tl⟩
    · simp at hrv
    · have hd : d ∈ c :: rest := by
        have : d ∈ (c :: rest).reverse := by rw [hrv]; exact List.mem_cons_self _ _
        exact List.mem_reverse.1 this
      rw [trimStop_nonspace L d tl (hs d hd), ← hrv, List.reverse_reverse]

theorem TrimSpace_nil (L : Lib) : TrimSpace L [] = [] := rfl

end SealPkg

namespace SealPkg

/-- What `Open` does with the text `Seal` makes, step by step. -/
theorem Open_of_decoded (L : Lib) (priv : FixedBytes 32) (text : Bytes)
    (freshPub : FixedBytes 32) (box : Bytes)
    (hdec : L.b32decode (TrimSpace L text)
      = Except.ok (ciphertextVersion :: (freshPub.val ++ box))) :
    Open L (some priv) text =
      match L.boxOpen box zeroNonce freshPub priv with
      | none => Run.ret (Except.error (ascii "decryption failed"))
      | some msg => Run.ret (Except.ok msg) := by
  have hlen : ¬ (freshPub.val ++ box).length < 32 := by
    have := freshPub.property
    simp only [List.length_append, not_lt]; omega
  simp only [Open, hdec, ne_eq, not_true_eq_false, if_false, hlen,
    copyInto_take_append, drop_append_fixed]

/-- C1. For every message, every recipient key pair `(PublicKey priv, priv)`
and every ephemeral key pair that `box.GenerateKey` returns in `Seal` (its
public key is the base-point multiple of its private key), `Seal` returns an
envelope and `Open` with `priv` returns the message from it with no error,
given that `box.Open` opens what `box.Seal` sealed under matching keys, that
base32 decoding undoes encoding, and that base32 text has no white space. -/
theorem Open_Seal_round_trip (L : Lib) (hbox : BoxOpensSealed L) (h32 : Base32RoundTrip L)
    (halpha : Base32Alphabet L) (priv freshPub freshPriv : FixedBytes 32)
    (hfresh : freshPub = L.scalarBaseMult freshPriv) (m : Bytes) :
    ∃ envelope, Seal L (Except.ok (freshPub, freshPriv)) (PublicKey L priv) m = Run.ret envelope ∧
      Open L (some priv) envelope = Run.ret (Except.ok m) := by
  refine ⟨_, rfl, ?_⟩
  have hdec : L.b32decode (TrimSpace L
      (L.b32encode ([] ++ [ciphertextVersion] ++ freshPub.val
        ++ L.boxSeal m zeroNonce (PublicKey L priv) freshPriv) ++ ascii "\n"))
      = Except.ok (ciphertextVersion :: (freshPub.val
        ++ L.boxSeal m zeroNonce (PublicKey L priv) freshPriv)) := by
    rw [ascii_newline, TrimSpace_text_newline L _ (halpha _), h32]
    simp
  rw [Open_of_decoded L priv _ freshPub _ hdec, hfresh, PublicKey, hbox]

/-- Witness of C1 with the example library: the message `hi` and a newline. -/
theorem Open_Seal_round_trip_witness :
    ∃ envelope,
      Seal exampleLib (Except.ok (zeroKey, zeroKey)) (PublicKey exampleLib zeroKey)
        [104, 105, 10] = Run.ret envelope ∧
      Open exampleLib (some zeroKey) envelope = Run.ret (Except.ok [104, 105, 10]) :=
  Open_Seal_round_trip exampleLib exampleLib_boxOpensSealed exampleLib_base32RoundTrip
    exampleLib_base32Alphabet zeroKey zeroKey zeroKey rfl [104, 105, 10]

/-- C7. For every recipient public key and message, the output of `Seal` is
the base32 text of `version byte 1 ‖ ephemeral public key ‖ box of the message
under the all-zero nonce` followed by one newline; the text itself holds no
newline, and the bytes encoded are `1 + 32 + len(m) + 16` many, given that
`box.Seal` adds `box.Overhead` bytes and that base32 text has no white space. -/
theorem Seal_output_format (L : Lib) (hover : BoxAddsOverhead L) (halpha : Base32Alphabet L)
    (publicKey freshPub freshPriv : FixedBytes 32) (m : Bytes) :
    Seal L (Except.ok (freshPub, freshPriv)) publicKey m
      = Run.ret (L.b32encode (1 :: (freshPub.val ++ L.boxSeal m zeroNonce publicKey freshPriv))
          ++ [10]) ∧
    zeroNonce.val = List.replicate 24 0 ∧
    (∀ c ∈ L.b32encode (1 :: (freshPub.val ++ L.boxSeal m zeroNonce publicKey freshPriv)),
      c ≠ 10) ∧
    (1 :: (freshPub.val ++ L.boxSeal m zeroNonce publicKey freshPriv)).length
      = 1 + 32 + m.length + 16 := by
  refine ⟨?_, rfl, ?_, ?_⟩
  · simp [Seal, ciphertextVersion, ascii_newline]
  · intro c hc hnl
    have := (halpha _ c hc).2
    rw [hnl] at this
    simp [asciiSpace] at this
  · have h1 := freshPub.property
    have h2 := hover m zeroNonce publicKey freshPriv
    simp only [List.length_cons, List.length_append, h1, h2, boxOverhead, secretboxOverhead]
    omega

/-- Witness of C7 with the example library. -/
theorem Seal_output_format_witness :
    Seal exampleLib (Except.ok (zeroKey, zeroKey)) zeroKey [104, 105, 10]
      = Run.ret (exampleLib.b32encode
          (1 :: (zeroKey.val ++ exampleLib.boxSeal [104, 105, 10] zeroNonce zeroKey zeroKey))
          ++ [10]) ∧
    (1 :: (zeroKey.val ++ exampleLib.boxSeal [104, 105, 10] zeroNonce zeroKey zeroKey)).length
      = 1 + 32 + 3 + 16 :=
  ⟨(Seal_output_format exampleLib exampleLib_boxAddsOverhead exampleLib_base32Alphabet
      zeroKey zeroKey zeroKey [104, 105, 10]).1,
   (Seal_output_format exampleLib exampleLib_boxAddsOverhead exampleLib_base32Alphabet
      zeroKey zeroKey zeroKey [104, 105, 10]).2.2.2⟩

/-- C2, the code at the failing inputs. When the trimmed text decodes to fewer
than `1 + 32` bytes, `Open` does not return unless the first byte is a wrong
version: on no bytes the index `data[0]` panics, and after a right version
byte the slices `data[0:32]`, `data[32:]` panic. -/
theorem Open_short_input_panics (L : Lib) (priv : Option (FixedBytes 32)) (text data : Bytes)
    (hdec : L.b32decode (TrimSpace L text) = Except.ok data)
    (hshort : data.length < 1 + 32)
    (hver : ∀ v, data.head? = some v → v = ciphertextVersion) :
    ∃ msg, Open L priv text = Run.panic msg := by
  cases data with
  | nil => exact ⟨"index out of range [0] with length 0", by simp [Open, hdec]⟩
  | cons v rest =>
    have hv : v = ciphertextVersion := hver v rfl
    have hlen : rest.length < 32 := by simp at hshort; omega
    exact ⟨"slice bounds out of range", by simp [Open, hdec, hv, hlen]⟩

/-- Witness of the panic of C2: the empty envelope text, with the example
library. -/
theorem Open_short_input_panics_witness :
    exampleLib.b32decode (TrimSpace exampleLib []) = Except.ok [] ∧
    ∃ msg, Open exampleLib (some zeroKey) [] = Run.panic msg :=
  ⟨rfl, Open_short_input_panics exampleLib (some zeroKey) [] [] rfl (by decide)
    (by intro v h; simp at h)⟩

end SealPkg

/-! ## Key derivation and the wrapped private key -/

namespace SealPkg

theorem scrypt_constants_ok : scryptParamsOK (2 <<< 15) 8 1 = true := by decide

theorem shift_constant : 2 <<< 15 = 2 ^ 16 := by decide

theorem ascii_seal : ascii "seal" = [115, 101, 97, 108] := by decide

/-- `DeriveKey` returns what `scrypt.Key` returns on its constants. -/
theorem DeriveKey_ret (L : Lib) (hscrypt : ScryptReturnsKey L) (passphrase : Bytes) :
    ∃ dk, L.scryptKey passphrase (ascii "seal") (2 ^ 16) 8 1 32 = Except.ok dk ∧
      dk.length = 32 ∧ DeriveKey L passphrase = Run.ret dk := by
  obtain ⟨dk, hdk, hlen⟩ := hscrypt passphrase (ascii "seal") (2 <<< 15) 8 1 32
    scrypt_constants_ok
  have hret : DeriveKey L passphrase = Run.ret dk := by simp only [DeriveKey, hdk]
  rw [shift_constant] at hdk
  exact ⟨dk, hdk, hlen, hret⟩

/-- C8, as stated, fails: the cost parameter `N` that `DeriveKey` passes to
`scrypt.Key` is `2<<15 = 65536 = 2^16`, not `2^17`. The recording library
returns the parameters of the call. -/
theorem DeriveKey_cost_is_not_two_pow_17 :
    DeriveKey recordingLib [112, 119] = Run.ret ([115, 101, 97, 108] ++ [65536, 8, 1, 32]) ∧
    DeriveKey recordingLib [112, 119] ≠ Run.ret ([115, 101, 97, 108] ++ [2 ^ 17, 8, 1, 32]) := by
  constructor <;> decide

/-- C8, amended. `DeriveKey` is a function of the passphrase alone: its result
is the result of the memory-hard function on the passphrase with the fixed
salt `seal` and the fixed cost parameters `N = 2^16`, `r = 8`, `p = 1` and key
length 32, a panic when that is an error; and when the memory-hard function
returns a key of the length asked on parameters that pass its check,
`DeriveKey` returns, and returns exactly 32 bytes. -/
theorem DeriveKey_fixed_parameters (L : Lib) (passphrase : Bytes) :
    DeriveKey L passphrase =
      (match L.scryptKey passphrase [115, 101, 97, 108] (2 ^ 16) 8 1 32 with
       | Except.error err => Run.panic (String.mk (err.map Char.ofNat))
       | Except.ok dk => Run.ret dk) ∧
    (ScryptReturnsKey L → ∃ dk, DeriveKey L passphrase = Run.ret dk ∧ dk.length = 32) := by
  constructor
  · rw [DeriveKey, ascii_seal, shift_constant]
  · intro hscrypt
    obtain ⟨dk, _, hlen, hret⟩ := DeriveKey_ret L hscrypt passphrase
    exact ⟨dk, hret, hlen⟩

/-- Witness of the amended C8 with the example library: the passphrase `pw`. -/
theorem DeriveKey_fixed_parameters_witness :
    ScryptReturnsKey exampleLib ∧
    ∃ dk, DeriveKey exampleLib [112, 119] = Run.ret dk ∧ dk.length = 32 :=
  ⟨exampleLib_scryptReturnsKey,
   (DeriveKey_fixed_parameters exampleLib [112, 119]).2 exampleLib_scryptReturnsKey⟩

end SealPkg

namespace SealKeygen

/-- C6. For every passphrase, private key and nonce, the private key file that
seal-keygen writes is the base32 text of `nonce ‖ secretbox of the key`, which
decodes to `24 + 32 + 16` bytes whose first 24 are the nonce, and
`ReadPrivateKey` on that file returns exactly the key when the passphrase is
entered, given that `secretbox.Open` opens what `secretbox.Seal` sealed and
adds `secretbox.Overhead` bytes, that base32 decoding undoes encoding and its
text has no white space, and that `scrypt.Key` returns a key. -/
theorem keygen_ReadPrivateKey_round_trip (L : Lib)
    (hopen : SecretboxOpensSealed L) (hover : SecretboxAddsOverhead L)
    (h32 : Base32RoundTrip L) (halpha : Base32Alphabet L) (hscrypt : ScryptReturnsKey L)
    (p keyFile : Bytes) (publicKey k : FixedBytes 32) (nonce : FixedBytes 24) :
    ∃ dk pubFile privFile decoded,
      DeriveKey L p = Run.ret dk ∧
      keyFiles L p (Except.ok (publicKey, k)) (Except.ok nonce) = Run.ret (pubFile, privFile) ∧
      L.b32decode (TrimSpace L privFile) = Except.ok decoded ∧
      decoded.length = 24 + 32 + 16 ∧
      decoded.take 24 = nonce.val ∧
      L.secretboxOpen (decoded.drop 24) (copyInto 24 (decoded.take 24)) (copyInto 32 dk)
        = some k.val ∧
      ReadPrivateKey L keyFile (Except.ok privFile) [Except.ok p] = some (Run.ret k) := by
  obtain ⟨dk, _, _, hdk⟩ := DeriveKey_ret L hscrypt p
  have hn := nonce.property
  have hk := k.property
  have hsealed := hover k.val nonce (copyInto 32 dk)
  have hdec : L.b32decode (TrimSpace L
      (L.b32encode (nonce.val ++ L.secretboxSeal k.val nonce (copyInto 32 dk)) ++ ascii "\n"))
      = Except.ok (nonce.val ++ L.secretboxSeal k.val nonce (copyInto 32 dk)) := by
    rw [ascii_newline, TrimSpace_text_newline L _ (halpha _), h32]
  have hlen : (nonce.val ++ L.secretboxSeal k.val nonce (copyInto 32 dk)).length
      = 24 + 32 + 16 := by
    rw [List.length_append, hsealed, hn, hk, secretboxOverhead]
  have htake : (nonce.val ++ L.secretboxSeal k.val nonce (copyInto 32 dk)).take 24
      = nonce.val := by
    rw [List.take_append_of_le_length (by omega), List.take_of_length_le (by omega)]
  have hunwrap : L.secretboxOpen
      ((nonce.val ++ L.secretboxSeal k.val nonce (copyInto 32 dk)).drop 24)
      (copyInto 24 ((nonce.val ++ L.secretboxSeal k.val nonce (copyInto 32 dk)).take 24))
      (copyInto 32 dk) = some k.val := by
    rw [copyInto_take_append, drop_append_fixed, hopen]
  refine ⟨dk, L.b32encode publicKey.val ++ ascii "\n", _, _, hdk, ?_, hdec, hlen, htake,
    hunwrap, ?_⟩
  · simp [keyFiles, hdk]
  · have hsize : ¬ (nonce.val ++ L.secretboxSeal k.val nonce (copyInto 32 dk)).length
        ≠ nonceOverhead + 32 + secretboxOverhead := by
      rw [hlen]; decide
    simp only [ReadPrivateKey, hdec, hsize, if_false, unlockLoop, hdk, hunwrap, copyInto_val]

/-- Witness of C6 with the example library: the passphrase `pw`. -/
theorem keygen_ReadPrivateKey_round_trip_witness :
    ∃ dk pubFile privFile decoded,
      DeriveKey exampleLib [112, 119] = Run.ret dk ∧
      keyFiles exampleLib [112, 119] (Except.ok (zeroKey, zeroKey)) (Except.ok zeroNonce)
        = Run.ret (pubFile, privFile) ∧
      exampleLib.b32decode (TrimSpace exampleLib privFile) = Except.ok decoded ∧
      decoded.length = 24 + 32 + 16 ∧
      decoded.take 24 = zeroNonce.val ∧
      exampleLib.secretboxOpen (decoded.drop 24) (copyInto 24 (decoded.take 24)) (copyInto 32 dk)
        = some zeroKey.val ∧
      ReadPrivateKey exampleLib [107] (Except.ok privFile) [Except.ok [112, 119]]
        = some (Run.ret zeroKey) :=
  keygen_ReadPrivateKey_round_trip exampleLib exampleLib_secretboxOpensSealed
    exampleLib_secretboxAddsOverhead exampleLib_base32RoundTrip exampleLib_base32Alphabet
    exampleLib_scryptReturnsKey [112, 119] [107] zeroKey zeroKey zeroNonce

end SealKeygen

/-! ## The separator of the edit protocol -/

namespace SealPkg

/-- `Index` finds the first position at which `sep` starts. -/
theorem Index_eq_some_of_first (sep : Bytes) :
    ∀ (s : Bytes) (n : Nat), sep.isPrefixOf (s.drop n) = true →
      (∀ i, i < n → sep.isPrefixOf (s.drop i) = false) → n ≤ s.length →
      Index s sep = some n := by
  intro s
  induction s with
  | nil =>
    intro n hat _ hn
    have hn0 : n = 0 := by simpa using hn
    subst hn0
    have : sep = [] := by
      cases sep with
      | nil => rfl
      | cons a t => simp [List.isPrefixOf] at hat
    simp [Index, this]
  | cons c s ih =>
    intro n hat hbefore hn
    cases n with
    | zero =>
      have h0 : sep.isPrefixOf (c :: s) = true := by simpa using hat
      simp [Index, h0]
    | succ n =>
      have h0 : sep.isPrefixOf (c :: s) = false := by simpa using hbefore 0 (by omega)
      have hrec : Index s sep = some n := by
        apply ih n
        · simpa using hat
        · intro i hi
          simpa using hbefore (i + 1) (by omega)
        · simpa using hn
      simp [Index, h0, hrec]

/-- `Index` finds nothing when `sep` starts nowhere. -/
theorem Index_eq_none_of_absent (sep : Bytes) :
    ∀ s : Bytes, (∀ i, sep.isPrefixOf (s.drop i) = false) → Index s sep = none := by
  intro s
  induction s with
  | nil =>
    intro h
    have h0 : sep.isPrefixOf [] = false := by simpa using h 0
    have : sep ≠ [] := by
      intro e; rw [e] at h0; simp [List.isPrefixOf] at h0
    simp [Index, this]
  | cons c s ih =>
    intro h
    have h0 : sep.isPrefixOf (c :: s) = false := by simpa using h 0
    have hrec : Index s sep = none := ih (fun i => by simpa using h (i + 1))
    simp [Index, h0, hrec]

/-- Whether `sep` starts at a position of `s` does not depend on what follows
`s`, when `s` has room for `sep` there. -/
theorem isPrefixOf_drop_append (sep s t : Bytes) (i : Nat) (hroom : i + sep.length ≤ s.length) :
    sep.isPrefixOf ((s ++ t).drop i) = sep.isPrefixOf (s.drop i) := by
  have hdrop : (s ++ t).drop i = s.drop i ++ t := List.drop_append_of_le_length (by omega)
  have hlen : sep.length ≤ (s.drop i).length := by simp; omega
  have hiff : sep <+: s.drop i ++ t ↔ sep <+: s.drop i := by
    rw [List.prefix_iff_eq_take, List.prefix_iff_eq_take, List.take_append_of_le_length hlen]
  rw [hdrop, Bool.eq_iff_iff, List.isPrefixOf_iff_prefix, List.isPrefixOf_iff_prefix]
  exact hiff

/-- When the first occurrence of `sep` in `pre ++ sep` is the one at the end,
cutting `pre ++ sep ++ payload` after the first occurrence of `sep` gives back
the payload. -/
theorem Index_split_recovers (pre sep payload : Bytes)
    (hfirst : ∀ i, i < pre.length → sep.isPrefixOf ((pre ++ sep).drop i) = false) :
    ∃ ix, Index (pre ++ sep ++ payload) sep = some ix ∧
      (pre ++ sep ++ payload).drop (ix + sep.length) = payload := by
  refine ⟨pre.length, ?_, ?_⟩
  · apply Index_eq_some_of_first
    · rw [List.append_assoc, List.drop_left]
      simp [List.isPrefixOf_iff_prefix]
    · intro i hi
      rw [isPrefixOf_drop_append sep (pre ++ sep) payload i (by simp; omega)]
      exact hfirst i hi
    · simp only [List.length_append]; omega
  · have : pre.length + sep.length = (pre ++ sep).length := by simp
    rw [this, List.drop_left]

end SealPkg

namespace SealEdit

theorem composeBuffer_eq (L : Lib) (file payload keyName : Bytes) (publicKey : FixedBytes 32) :
    composeBuffer L file payload keyName publicKey
      = composeBuffer L file [] keyName publicKey ++ payload := by
  cases payload with
  | nil => simp [composeBuffer]
  | cons c rest => simp [composeBuffer]

/-- C5, as stated, fails on a file name that ends in the text of the separator
line: with the newline that the header puts after the file name it makes an
earlier separator line, and the split returns the rest of the header in front
of the payload. -/
theorem separator_law_fails_on_file_name :
    Index (composeBuffer exampleLib
        (ascii "./------------------------ 8< ------------------------") [115, 101, 99] [107]
        zeroKey) lineSeparator = some 10 ∧
    (composeBuffer exampleLib
        (ascii "./------------------------ 8< ------------------------") [115, 101, 99] [107]
        zeroKey).drop (10 + lineSeparator.length) ≠ [115, 101, 99] := by
  constructor <;> decide

/-- C5, amended. For every file name, key name and public key for which the
separator line starts nowhere in the header before the one the template puts
at its end, and for every payload (empty, or holding the separator line
itself), splitting the composed buffer at the first occurrence of the
separator line and taking everything after it recovers exactly the payload. -/
theorem separator_law (L : Lib) (file keyName payload : Bytes) (publicKey : FixedBytes 32)
    (hfirst : ∀ i, i < (composeBuffer L file [] keyName publicKey).length - lineSeparator.length →
      lineSeparator.isPrefixOf ((composeBuffer L file [] keyName publicKey).drop i) = false) :
    ∃ ix, Index (composeBuffer L file payload keyName publicKey) lineSeparator = some ix ∧
      (composeBuffer L file payload keyName publicKey).drop (ix + lineSeparator.length)
        = payload := by
  have hhead : composeBuffer L file [] keyName publicKey
      = (ascii "# File: " ++ file ++ ascii "\n# Key: " ++ keyName ++ ascii " ("
          ++ L.b32encode publicKey.val ++ ascii ")\n# Do not remove the following line.\n")
        ++ lineSeparator := by
    simp [composeBuffer, headerTemplate]
  rw [composeBuffer_eq, hhead]
  apply Index_split_recovers
  intro i hi
  rw [hhead] at hfirst
  apply hfirst i
  simp only [List.length_append] at hi ⊢
  omega

/-- Witness of the amended C5: a payload that holds the separator line. -/
theorem separator_law_witness :
    ∃ ix, Index (composeBuffer exampleLib [97] (lineSeparator ++ [120]) [107] zeroKey) lineSeparator
        = some ix ∧
      (composeBuffer exampleLib [97] (lineSeparator ++ [120]) [107] zeroKey).drop
        (ix + lineSeparator.length) = lineSeparator ++ [120] :=
  separator_law exampleLib [97] [107] (lineSeparator ++ [120]) zeroKey (by decide)

end SealEdit

/-! ## The edit and password-creation flows -/

namespace SealPkg

theorem isPrefixOf_drop_le (sep s : Bytes) (i : Nat) (hsep : sep ≠ [])
    (h : sep.isPrefixOf (s.drop i) = true) : i ≤ s.length := by
  by_contra hgt
  rw [List.drop_of_length_le (by omega)] at h
  cases sep with
  | nil => exact hsep rfl
  | cons a t => simp [List.isPrefixOf] at h

end SealPkg

namespace SealEdit

theorem lineSeparator_ne_nil : lineSeparator ≠ [] := by decide

theorem saveEdited_policy {F : Type} (L : Lib) (os : OS F)
    (fresh : Except String (FixedBytes 32 × FixedBytes 32))
    (file keyName : Bytes) (publicKey : FixedBytes 32) (data : Bytes) (w : World F) :
    WritePolicy L os fresh file publicKey lineSeparator (Except.ok data) w
      (saveEdited L os fresh file keyName publicKey data w) := by
  refine ⟨?_, ?_, ?_⟩
  · intro h
    simp [saveEdited, h]
  · intro hne habsent
    have hlen : ¬ data.length = 0 := by
      intro h; exact hne (List.length_eq_zero.1 h)
    simp [saveEdited, hlen, Index_eq_none_of_absent lineSeparator data habsent, logFatal, logPrint]
  · intro hne i hat hfirst
    have hlen : ¬ data.length = 0 := by
      intro h; exact hne (List.length_eq_zero.1 h)
    have hix : Index data lineSeparator = some i :=
      Index_eq_some_of_first lineSeparator data i hat hfirst
        (isPrefixOf_drop_le lineSeparator data i lineSeparator_ne_nil hat)
    constructor
    · intro ctxt hseal
      rcases hwr : os.WriteFile w.files file ctxt with ⟨files, err⟩
      cases err with
      | none => simp [saveEdited, hlen, hix, hseal, hwr]
      | some e => simp [saveEdited, hlen, hix, hseal, hwr, logFatal, logPrint]
    · intro msg hseal
      simp [saveEdited, hlen, hix, hseal]

theorem editor_policy {F : Type} (L : Lib) (os : OS F) (vis : Bytes → Except Bytes Bytes)
    (fresh : Except String (FixedBytes 32 × FixedBytes 32))
    (file startContents keyName : Bytes) (publicKey : FixedBytes 32) (w : World F) :
    WritePolicy L os fresh file publicKey lineSeparator
      (vis (composeBuffer L file startContents keyName publicKey)) w
      (editor L os vis fresh file startContents keyName publicKey w) := by
  unfold editor
  cases hv : vis (composeBuffer L file startContents keyName publicKey) with
  | error err => simp [WritePolicy, logFatal, logPrint]
  | ok data => exact saveEdited_policy L os fresh file keyName publicKey data w

end SealEdit

namespace SealPw

theorem pw_lineSeparator_ne_nil : lineSeparator ≠ [] := by decide

theorem pw_saveEdited_policy {F : Type} (L : Lib) (os : OS F)
    (fresh : Except String (FixedBytes 32 × FixedBytes 32))
    (file keyName : Bytes) (publicKey : FixedBytes 32) (data : Bytes) (w : World F) :
    WritePolicy L os fresh file publicKey lineSeparator (Except.ok data) w
      (saveEdited L os fresh file keyName publicKey data w) := by
  refine ⟨?_, ?_, ?_⟩
  · intro h
    simp [saveEdited, h]
  · intro hne habsent
    have hlen : ¬ data.length = 0 := by
      intro h; exact hne (List.length_eq_zero.1 h)
    simp [saveEdited, hlen, Index_eq_none_of_absent lineSeparator data habsent, logFatal, logPrint]
  · intro hne i hat hfirst
    have hlen : ¬ data.length = 0 := by
      intro h; exact hne (List.length_eq_zero.1 h)
    have hix : Index data lineSeparator = some i :=
      Index_eq_some_of_first lineSeparator data i hat hfirst
        (isPrefixOf_drop_le lineSeparator data i pw_lineSeparator_ne_nil hat)
    constructor
    · intro ctxt hseal
      rcases hwr : os.WriteFile w.files file ctxt with ⟨files, err⟩
      cases err with
      | none => simp [saveEdited, hlen, hix, hseal, hwr]
      | some e => simp [saveEdited, hlen, hix, hseal, hwr, logFatal, logPrint]
    · intro msg hseal
      simp [saveEdited, hlen, hix, hseal]

end SealPw

namespace SealPw

/-- C9. In the edit flow (`editor` of seal-edit) and in the password-creation
flow (`createPW` of seal-pw, once both passwords are drawn), with the editor
as a function from the composed buffer to the returned buffer: the file
system is handed to `WriteFile` only when the returned buffer is not empty and
holds the separator line, and then with the target file and `Seal` of exactly
the bytes after the first separator line; on an empty returned buffer the
flow ends without error and the files are as before; on a buffer without the
separator line it ends fatally with "missing line separator" and the files
are as before. -/
theorem edit_flows_write_policy {F : Type} (L : Lib) (os : OS F)
    (vis : Bytes → Except Bytes Bytes)
    (fresh : Except String (FixedBytes 32 × FixedBytes 32))
    (file startContents keyName : Bytes) (publicKey : FixedBytes 32) (w : World F)
    (readsLong readsShort : List (Except String Bytes)) :
    WritePolicy L os fresh file publicKey SealEdit.lineSeparator
      (vis (SealEdit.composeBuffer L file startContents keyName publicKey)) w
      (SealEdit.editor L os vis fresh file startContents keyName publicKey w) ∧
    (∀ long short, genPassword longCharset 32 readsLong = some (Run.ret long) →
      genPassword shortCharset 16 readsShort = some (Run.ret short) →
      ∃ res, createPW L os vis readsLong readsShort fresh file keyName publicKey w = some res ∧
        WritePolicy L os fresh file publicKey lineSeparator
          (vis (pwTemplate
            { Key := L.b32encode publicKey.val, KeyName := keyName, FileName := file,
              LineSeparator := lineSeparator, LongPassword := utf8 long,
              ShortPassword := utf8 short })) w res) := by
  refine ⟨SealEdit.editor_policy L os vis fresh file startContents keyName publicKey w, ?_⟩
  intro long short hlong hshort
  simp only [createPW, hlong, hshort]
  cases hv : vis (pwTemplate
      { Key := L.b32encode publicKey.val, KeyName := keyName, FileName := file,
        LineSeparator := lineSeparator, LongPassword := utf8 long,
        ShortPassword := utf8 short }) with
  | error err => exact ⟨_, rfl, by simp [WritePolicy, logFatal, logPrint]⟩
  | ok data => exact ⟨_, rfl, pw_saveEdited_policy L os fresh file keyName publicKey data w⟩

/-- Witness of C9 on the example file system: an editor that appends the byte
`x` to the buffer, and random reads of zero bytes for the two passwords. -/
theorem edit_flows_write_policy_witness :
    (genPassword longCharset 32 [Except.ok (List.replicate 32 0)]
        = some (Run.ret (String.mk (List.replicate 32 'A'))) ∧
     genPassword shortCharset 16 [Except.ok (List.replicate 16 0)]
        = some (Run.ret (String.mk (List.replicate 16 'a')))) ∧
    ∃ res, createPW exampleLib exampleOS (fun buf => Except.ok (buf ++ [120]))
        [Except.ok (List.replicate 32 0)] [Except.ok (List.replicate 16 0)]
        (Except.ok (zeroKey, zeroKey)) [97] [107] zeroKey (startWorld []) = some res ∧
      WritePolicy exampleLib exampleOS (Except.ok (zeroKey, zeroKey)) [97] zeroKey lineSeparator
        ((fun buf => Except.ok (buf ++ [120])) (pwTemplate
          { Key := exampleLib.b32encode zeroKey.val, KeyName := [107], FileName := [97],
            LineSeparator := lineSeparator,
            LongPassword := utf8 (String.mk (List.replicate 32 'A')),
            ShortPassword := utf8 (String.mk (List.replicate 16 'a')) }))
        (startWorld []) res :=
  ⟨⟨by decide, by decide⟩,
   (edit_flows_write_policy exampleLib exampleOS (fun buf => Except.ok (buf ++ [120]))
      (Except.ok (zeroKey, zeroKey)) [97] [] [107] zeroKey (startWorld [])
      [Except.ok (List.replicate 32 0)] [Except.ok (List.replicate 16 0)]).2
      (String.mk (List.replicate 32 'A')) (String.mk (List.replicate 16 'a'))
      (by decide) (by decide)⟩

end SealPw

/-! ## What each command does when a file does not decrypt -/

namespace SealPw

theorem scanLines_nil : scanLines [] = [] := by decide

/-- C10, as stated, fails twice on the example files, where `a` does not
decrypt and `b` does. The batch tool seal-cat stops at `a` with a fatal error
and prints nothing, so `b` is never processed, while the multi-file mode of
seal-pw goes on and prints `b`. The single-file read mode of seal-pw does not
end fatally on `a`: it returns. -/
theorem failure_policy_differs_per_tool :
    ((SealCat.catLoop exampleLib exampleOS zeroKey [[97], [98]] (startWorld exampleFiles)).2
        = Run.fatal (ascii "error decrypting a: decryption failed") ∧
     (SealCat.catLoop exampleLib exampleOS zeroKey [[97], [98]] (startWorld exampleFiles)).1.stdout
        = []) ∧
    ((catLoop exampleLib exampleOS zeroKey [[97], [98]] (startWorld exampleFiles)).2 = Run.ret () ∧
     (catLoop exampleLib exampleOS zeroKey [[97], [98]] (startWorld exampleFiles)).1.stdout
        = [10, 10, 104, 105, 10]) ∧
    (readPW exampleLib exampleOS zeroKey [97] (startWorld exampleFiles)).2 = Run.ret () := by
  refine ⟨⟨?_, ?_⟩, ⟨?_, ?_⟩, ?_⟩ <;> decide

end SealPw

/-! ## Names for which the separator law holds -/

namespace SealEdit

theorem lineSeparator_mark : lineSeparator[26]? = some 60 := by decide

theorem lineSeparator_before_mark : ∀ k, k < 26 → lineSeparator[k]? ≠ some 60 := by decide

/-- Text without the character `<` followed by the separator line holds the
separator line only at its end: the `<` of an earlier one would have to lie
in the text or among the first 26 characters of the line. -/
theorem no_early_separator (pre : Bytes) (hpre : 60 ∉ pre) :
    ∀ i, i < pre.length →
      lineSeparator.isPrefixOf ((pre ++ lineSeparator).drop i) = false := by
  intro i hi
  rw [Bool.eq_false_iff]
  intro h
  rw [List.isPrefixOf_iff_prefix] at h
  obtain ⟨t, ht⟩ := h
  have h26 : ((pre ++ lineSeparator).drop i)[26]? = some 60 := by
    rw [← ht, List.getElem?_append_left (by decide), lineSeparator_mark]
  rw [List.getElem?_drop] at h26
  by_cases hlt : i + 26 < pre.length
  · rw [List.getElem?_append_left hlt] at h26
    obtain ⟨_, he⟩ := List.getElem?_eq_some_iff.1 h26
    exact hpre (he ▸ List.getElem_mem _)
  · rw [List.getElem?_append_right (by omega)] at h26
    exact lineSeparator_before_mark (i + 26 - pre.length) (by omega) h26

/-- The separator law holds whenever the file name, the key name and the text
of the public key hold no `<`. -/
theorem separator_law_plain_names (L : Lib) (file keyName payload : Bytes)
    (publicKey : FixedBytes 32) (hfile : 60 ∉ file) (hname : 60 ∉ keyName)
    (hkey : 60 ∉ L.b32encode publicKey.val) :
    ∃ ix, Index (composeBuffer L file payload keyName publicKey) lineSeparator = some ix ∧
      (composeBuffer L file payload keyName publicKey).drop (ix + lineSeparator.length)
        = payload := by
  have hhead : composeBuffer L file [] keyName publicKey
      = (ascii "# File: " ++ file ++ ascii "\n# Key: " ++ keyName ++ ascii " ("
          ++ L.b32encode publicKey.val ++ ascii ")\n# Do not remove the following line.\n")
        ++ lineSeparator := by
    simp [composeBuffer, headerTemplate]
  rw [composeBuffer_eq, hhead]
  apply Index_split_recovers
  apply no_early_separator
  have h1 : 60 ∉ ascii "# File: " := by decide
  have h2 : 60 ∉ ascii "\n# Key: " := by decide
  have h3 : 60 ∉ ascii " (" := by decide
  have h4 : 60 ∉ ascii ")\n# Do not remove the following line.\n" := by decide
  simp only [List.mem_append, not_or]
  exact ⟨⟨⟨⟨⟨⟨h1, hfile⟩, h2⟩, hname⟩, h3⟩, hkey⟩, h4⟩

end SealEdit

/-! ## The password generator, byte by byte -/

namespace SealPw

theorem genInner_nil (charset : List Char) (length : Nat) (pw : List Char) :
    genInner charset length [] pw = pw := by
  simp [genInner]

theorem genPassword_single_accept (charset : List Char) (v : Nat) (c : Char)
    (hv : v < 256 - 256 % charset.length) (hc : charset[v % charset.length]? = some c) :
    genPassword charset 1 [Except.ok [v]] = some (Run.ret (String.mk [c])) := by
  have hn : ¬ charset.length = 0 := by
    intro h; rw [h] at hv; simp at hv
  obtain ⟨d, hd, hstep⟩ := genInner_accept charset 1 v [] [] (by simp) hv
  have hdc : d = c := by rw [hc] at hd; exact (Option.some.inj hd).symm
  have hin : genInner charset 1 [v] [] = [c] := by
    rw [hstep, genInner_nil, hdc]; rfl
  simp [genPassword, hn, genOuter, hin]

theorem genPassword_single_reject (charset : List Char) (v : Nat) (hne : charset ≠ [])
    (hv : 256 - 256 % charset.length ≤ v) :
    genPassword charset 1 [Except.ok [v]] = none := by
  have hn : ¬ charset.length = 0 := by
    intro h; exact hne (List.length_eq_zero.1 h)
  have hin : genInner charset 1 [v] [] = [] := by
    rw [genInner_reject charset 1 v [] [] hv, genInner_nil]
  simp [genPassword, hn, genOuter, hin]

/-- C3. For a charset of size `n` with `1 ≤ n ≤ 256`, `genPassword` accepts a
byte value `v` exactly when `v < 256 - 256 % n`. An accepted byte makes the
inner loop append `charset[v % n]`, and `genPassword` asked for one symbol on
that byte returns that symbol; a rejected byte appends nothing, and
`genPassword` on that byte alone returns no symbol. On any reads the result is
the first `length` symbols of the accepted bytes so mapped. Every index
`j < n` is the index chosen for exactly `256 / n` of the 256 byte values, a
number that is at least one. -/
theorem genPassword_accepts_uniformly (charset : List Char)
    (h1 : 1 ≤ charset.length) (h2 : charset.length ≤ 256) :
    (∀ v, v < 256 →
      ((acceptIndex charset.length v).isSome = true ↔ v < 256 - 256 % charset.length)) ∧
    (∀ v i, acceptIndex charset.length v = some i → i.val = v % charset.length) ∧
    (∀ v, v < 256 - 256 % charset.length →
      ∃ c, charset[v % charset.length]? = some c ∧
        (∀ length pw, pw.length < length → genInner charset length [v] pw = pw ++ [c]) ∧
        (∀ length pw buf, pw.length < length →
          genInner charset length (v :: buf) pw = genInner charset length buf (pw ++ [c])) ∧
        genPassword charset 1 [Except.ok [v]] = some (Run.ret (String.mk [c]))) ∧
    (∀ v, 256 - 256 % charset.length ≤ v →
      (∀ length pw, genInner charset length [v] pw = pw) ∧
      (∀ length pw buf,
        genInner charset length (v :: buf) pw = genInner charset length buf pw) ∧
      genPassword charset 1 [Except.ok [v]] = none) ∧
    (∀ length pw buf, pw.length ≤ length →
      genInner charset length buf pw = (pw ++ acceptedSymbols charset buf).take length) ∧
    (∀ (length : Nat) (bufs : List Bytes), genPassword charset length (bufs.map Except.ok) =
      if length ≤ (acceptedSymbols charset bufs.flatten).length then
        some (Run.ret (String.mk ((acceptedSymbols charset bufs.flatten).take length)))
      else none) ∧
    (∀ j : Fin charset.length,
      ((Finset.range 256).filter (fun v => acceptIndex charset.length v = some j)).card
        = 256 / charset.length) ∧
    1 ≤ 256 / charset.length := by
  have hne : charset ≠ [] := by
    intro h; rw [h] at h1; simp at h1
  have hn0 : ¬ charset.length = 0 := by omega
  refine ⟨?_, ?_, ?_, ?_, ?_, ?_, ?_, ?_⟩
  · intro v _
    rw [← not_iff_not]
    simp only [Bool.not_eq_true, Option.not_isSome, Option.isNone_iff_eq_none,
      acceptIndex_eq_none_iff, not_lt]
  · intro v i h
    exact ((acceptIndex_eq_some_iff _ _ _).1 h).2.symm
  · intro v hv
    obtain ⟨c, hc, _⟩ := genInner_accept charset 1 v [] [] (by simp) hv
    refine ⟨c, hc, ?_, ?_, genPassword_single_accept charset v c hv hc⟩
    · intro length pw hpw
      obtain ⟨d, hd, hstep⟩ := genInner_accept charset length v [] pw hpw hv
      have hdc : d = c := by rw [hc] at hd; exact (Option.some.inj hd).symm
      rw [hstep, genInner_nil, hdc]
    · intro length pw buf hpw
      obtain ⟨d, hd, hstep⟩ := genInner_accept charset length v buf pw hpw hv
      have hdc : d = c := by rw [hc] at hd; exact (Option.some.inj hd).symm
      rw [hstep, hdc]
  · intro v hv
    refine ⟨?_, ?_, genPassword_single_reject charset v hne hv⟩
    · intro length pw
      rw [genInner_reject charset length v [] pw hv, genInner_nil]
    · intro length pw buf
      exact genInner_reject charset length v buf pw hv
  · intro length pw buf hpw
    exact genInner_eq charset length buf pw hpw
  · intro length bufs
    rw [genPassword, if_neg hn0, genOuter_eq charset length bufs [] (by simp)]
    simp
  · intro j
    exact count_accepted _ h1 j
  · exact (Nat.one_le_div_iff h1).2 h2

/-- Witness of C3 at the 36-symbol charset of the source: the byte 37 is
accepted and gives a symbol, the byte 252 is rejected and gives none. -/
theorem genPassword_accepts_uniformly_witness :
    (1 ≤ shortCharset.length ∧ shortCharset.length ≤ 256) ∧
    (∃ c, shortCharset[37 % shortCharset.length]? = some c ∧
      genPassword shortCharset 1 [Except.ok [37]] = some (Run.ret (String.mk [c]))) ∧
    genPassword shortCharset 1 [Except.ok [252]] = none ∧
    ∀ j : Fin shortCharset.length,
      ((Finset.range 256).filter (fun v => acceptIndex shortCharset.length v = some j)).card
        = 256 / shortCharset.length :=
  ⟨by decide,
   match (genPassword_accepts_uniformly shortCharset (by decide) (by decide)).2.2.1 37
      (by decide) with
   | ⟨c, hc, _, _, hg⟩ => ⟨c, hc, hg⟩,
   ((genPassword_accepts_uniformly shortCharset (by decide) (by decide)).2.2.2.1 252
      (by decide)).2.2,
   (genPassword_accepts_uniformly shortCharset (by decide) (by decide)).2.2.2.2.2.2.1⟩

end SealPw


/-! ## The failure policy of each command -/

namespace SealEdit

theorem editLoop_nil {F : Type} (L : Lib) (os : OS F) (vis : Bytes → Except Bytes Bytes)
    (fresh : Nat → Except String (FixedBytes 32 × FixedBytes 32))
    (keyName : Bytes) (publicKey : FixedBytes 32) (privateKey : Option (FixedBytes 32))
    (i : Nat) (w : World F) :
    editLoop L os vis fresh keyName publicKey privateKey i [] w = (w, Run.ret ()) := by
  simp [editLoop]

/-- A file whose turn does not end well ends the loop: the files after it
change nothing. -/
theorem editLoop_stops {F : Type} (L : Lib) (os : OS F) (vis : Bytes → Except Bytes Bytes)
    (fresh : Nat → Except String (FixedBytes 32 × FixedBytes 32))
    (keyName : Bytes) (publicKey : FixedBytes 32) (privateKey : Option (FixedBytes 32))
    (i : Nat) (f : Bytes) (rest : List Bytes) (w : World F)
    (hbad : (editLoop L os vis fresh keyName publicKey privateKey i [f] w).2 ≠ Run.ret ()) :
    editLoop L os vis fresh keyName publicKey privateKey i (f :: rest) w
      = editLoop L os vis fresh keyName publicKey privateKey i [f] w := by
  rcases hg : getContents L os f privateKey w with ⟨w1, r1⟩
  cases r1 with
  | panic e => simp [editLoop, hg]
  | fatal e => simp [editLoop, hg]
  | ret c =>
    rcases he : editor L os vis (fresh i) f c keyName publicKey w1 with ⟨w2, r2⟩
    cases r2 with
    | panic e => simp [editLoop, hg, he]
    | fatal e => simp [editLoop, hg, he]
    | ret u =>
      exfalso
      apply hbad
      simp [editLoop, hg, he]

/-- The turn of a file whose contents were loaded is the run of the editor on
it, when that does not end well. -/
theorem editLoop_editor_bad {F : Type} (L : Lib) (os : OS F) (vis : Bytes → Except Bytes Bytes)
    (fresh : Nat → Except String (FixedBytes 32 × FixedBytes 32))
    (keyName : Bytes) (publicKey : FixedBytes 32) (privateKey : Option (FixedBytes 32))
    (i : Nat) (f c : Bytes) (rest : List Bytes) (w w2 : World F) (r : Run Unit)
    (hg : getContents L os f privateKey w = (w, Run.ret c))
    (he : editor L os vis (fresh i) f c keyName publicKey w = (w2, r))
    (hr : r ≠ Run.ret ()) :
    editLoop L os vis fresh keyName publicKey privateKey i (f :: rest) w = (w2, r) := by
  cases r with
  | panic e => simp [editLoop, hg, he]
  | fatal e => simp [editLoop, hg, he]
  | ret u => exact absurd rfl hr

end SealEdit

namespace SealPw

/-- C10, amended. Of the multi-file decryption tools, the multi-file mode of
seal-pw logs a decryption failure on one file, writes a newline and no
message for it and goes on with the next file, so the files after it are
still processed (each good one adds a newline and its message; one that
cannot be read is fatal), while seal-cat ends fatally at the first file that does not decrypt, with nothing
written to standard output and whatever the files after it. In the
single-target tools any failure is fatal at once and nothing more is output
or done: in seal-edit a file that cannot be read, a file that does not
decrypt, a failing editor, a missing separator line, a failing write, each
fatal, and a failing key draw, a panic, each whatever the files after it; in
the password creation of seal-pw a failing editor, a missing separator line,
a failing write, a failing key draw; in the read mode of seal-pw a file that
cannot be read. A log line goes to the error stream and
touches nothing else. -/
theorem failure_policy_per_tool {F : Type} (L : Lib) (os : OS F) (privateKey : FixedBytes 32)
    (file ctxt err : Bytes) (args : List Bytes) (w : World F)
    (hread : os.ReadFile w.files file = Except.ok ctxt)
    (hopen : Open L (some privateKey) ctxt = Run.ret (Except.error err)) :
    (∀ (pfx msg : Bytes) (w0 : World F),
      (logPrint pfx msg w0).stdout = w0.stdout ∧ (logPrint pfx msg w0).files = w0.files ∧
      (logPrint pfx msg w0).clipboard = w0.clipboard ∧
      (logPrint pfx msg w0).stderr
        = w0.stderr ++ pfx ++ msg ++ (if msg.getLast? = some 10 then [] else [10])) ∧
    -- seal-pw, several files
    ((∀ w0 : World F, catLoop L os privateKey [] w0 = (w0, Run.ret ())) ∧
     catLoop L os privateKey (file :: args) w
       = catLoop L os privateKey args
          { logPrint logPrefix (ascii "error decrypting " ++ file ++ ascii ": " ++ err) w with
            stdout := w.stdout ++ ascii "\n" } ∧
     (∀ (file2 ctxt2 msg : Bytes) (rest : List Bytes) (w0 : World F),
       os.ReadFile w0.files file2 = Except.ok ctxt2 →
       Open L (some privateKey) ctxt2 = Run.ret (Except.ok msg) →
       catLoop L os privateKey (file2 :: rest) w0
         = catLoop L os privateKey rest { w0 with stdout := w0.stdout ++ ascii "\n" ++ msg }) ∧
     (∀ (file2 ctxt2 msg : Bytes),
       os.ReadFile w.files file2 = Except.ok ctxt2 →
       Open L (some privateKey) ctxt2 = Run.ret (Except.ok msg) →
       catLoop L os privateKey [file, file2] w
         = ({ logPrint logPrefix (ascii "error decrypting " ++ file ++ ascii ": " ++ err) w with
              stdout := w.stdout ++ ascii "\n" ++ ascii "\n" ++ msg }, Run.ret ())) ∧
     (∀ (file2 : Bytes) (e : OSError) (rest : List Bytes) (w0 : World F),
       os.ReadFile w0.files file2 = Except.error e →
       catLoop L os privateKey (file2 :: rest) w0
         = (logPrint logPrefix e.text w0, Run.fatal e.text))) ∧
    -- seal-cat
    (SealCat.catLoop L os privateKey (file :: args) w
       = (logPrint SealCat.logPrefix (ascii "error decrypting " ++ file ++ ascii ": " ++ err) w,
          Run.fatal (ascii "error decrypting " ++ file ++ ascii ": " ++ err)) ∧
     (∀ w0 : World F, SealCat.catLoop L os privateKey [] w0 = (w0, Run.ret ())) ∧
     (∀ (file2 ctxt2 msg : Bytes) (rest : List Bytes) (w0 : World F),
       os.ReadFile w0.files file2 = Except.ok ctxt2 →
       Open L (some privateKey) ctxt2 = Run.ret (Except.ok msg) →
       SealCat.catLoop L os privateKey (file2 :: rest) w0
         = SealCat.catLoop L os privateKey rest { w0 with stdout := w0.stdout ++ msg }) ∧
     (∀ (file2 : Bytes) (e : OSError) (rest : List Bytes) (w0 : World F),
       os.ReadFile w0.files file2 = Except.error e →
       SealCat.catLoop L os privateKey (file2 :: rest) w0
         = (logPrint SealCat.logPrefix e.text w0, Run.fatal e.text))) ∧
    -- seal-edit
    (∀ (vis : Bytes → Except Bytes Bytes)
       (fresh : Nat → Except String (FixedBytes 32 × FixedBytes 32))
       (keyName : Bytes) (publicKey : FixedBytes 32) (i : Nat),
      SealEdit.editLoop L os vis fresh keyName publicKey (some privateKey) i (file :: args) w
        = (logPrint SealEdit.logPrefix (ascii "error decrypting " ++ file ++ ascii ": " ++ err) w,
           Run.fatal (ascii "error decrypting " ++ file ++ ascii ": " ++ err))) ∧
    (∀ (vis : Bytes → Except Bytes Bytes)
       (fresh : Nat → Except String (FixedBytes 32 × FixedBytes 32))
       (keyName : Bytes) (publicKey : FixedBytes 32) (key : Option (FixedBytes 32)) (i : Nat)
       (f : Bytes) (rest : List Bytes) (w0 : World F),
      SealEdit.editLoop L os vis fresh keyName publicKey key i [] w0 = (w0, Run.ret ()) ∧
      ((SealEdit.editLoop L os vis fresh keyName publicKey key i [f] w0).2 ≠ Run.ret () →
        SealEdit.editLoop L os vis fresh keyName publicKey key i (f :: rest) w0
          = SealEdit.editLoop L os vis fresh keyName publicKey key i [f] w0) ∧
      (∀ e : OSError, os.ReadFile w0.files f = Except.error e → e.notExist = false →
        SealEdit.editLoop L os vis fresh keyName publicKey key i (f :: rest) w0
          = (logPrint SealEdit.logPrefix e.text w0, Run.fatal e.text)) ∧
      (∀ c : Bytes, SealEdit.getContents L os f key w0 = (w0, Run.ret c) →
        (∀ e : Bytes,
          vis (SealEdit.composeBuffer L f c keyName publicKey) = Except.error e →
          SealEdit.editLoop L os vis fresh keyName publicKey key i (f :: rest) w0
            = (logPrint SealEdit.logPrefix e w0, Run.fatal e)) ∧
        (∀ data : Bytes,
          vis (SealEdit.composeBuffer L f c keyName publicKey) = Except.ok data →
          data ≠ [] → Index data SealEdit.lineSeparator = none →
          SealEdit.editLoop L os vis fresh keyName publicKey key i (f :: rest) w0
            = (logPrint SealEdit.logPrefix (ascii "missing line separator") w0,
               Run.fatal (ascii "missing line separator"))) ∧
        (∀ (data sealed : Bytes) (ix : Nat) (files : F) (e : OSError),
          vis (SealEdit.composeBuffer L f c keyName publicKey) = Except.ok data →
          data ≠ [] → Index data SealEdit.lineSeparator = some ix →
          Seal L (fresh i) publicKey (data.drop (ix + SealEdit.lineSeparator.length))
            = Run.ret sealed →
          os.WriteFile w0.files f sealed = (files, some e) →
          SealEdit.editLoop L os vis fresh keyName publicKey key i (f :: rest) w0
            = (logPrint SealEdit.logPrefix e.text { w0 with files := files },
               Run.fatal e.text)) ∧
        (∀ (data : Bytes) (ix : Nat) (m : String),
          vis (SealEdit.composeBuffer L f c keyName publicKey) = Except.ok data →
          data ≠ [] → Index data SealEdit.lineSeparator = some ix →
          Seal L (fresh i) publicKey (data.drop (ix + SealEdit.lineSeparator.length))
            = Run.panic m →
          SealEdit.editLoop L os vis fresh keyName publicKey key i (f :: rest) w0
            = (w0, Run.panic m)))) ∧
    -- seal-pw, creating a password file
    (∀ (vis : Bytes → Except Bytes Bytes) (readsLong readsShort : List (Except String Bytes))
       (fresh : Except String (FixedBytes 32 × FixedBytes 32))
       (keyName f : Bytes) (publicKey : FixedBytes 32) (long short : String) (w0 : World F),
      genPassword longCharset 32 readsLong = some (Run.ret long) →
      genPassword shortCharset 16 readsShort = some (Run.ret short) →
      (∀ e : Bytes,
        vis (pwTemplate
          { Key := L.b32encode publicKey.val, KeyName := keyName, FileName := f,
            LineSeparator := lineSeparator, LongPassword := utf8 long,
            ShortPassword := utf8 short }) = Except.error e →
        createPW L os vis readsLong readsShort fresh f keyName publicKey w0
          = some (logPrint logPrefix e w0, Run.fatal e)) ∧
      (∀ data : Bytes,
        vis (pwTemplate
          { Key := L.b32encode publicKey.val, KeyName := keyName, FileName := f,
            LineSeparator := lineSeparator, LongPassword := utf8 long,
            ShortPassword := utf8 short }) = Except.ok data →
        data ≠ [] → Index data lineSeparator = none →
        createPW L os vis readsLong readsShort fresh f keyName publicKey w0
          = some (logPrint logPrefix (ascii "missing line separator") w0,
              Run.fatal (ascii "missing line separator"))) ∧
      (∀ (data sealed : Bytes) (ix : Nat) (files : F) (e : OSError),
        vis (pwTemplate
          { Key := L.b32encode publicKey.val, KeyName := keyName, FileName := f,
            LineSeparator := lineSeparator, LongPassword := utf8 long,
            ShortPassword := utf8 short }) = Except.ok data →
        data ≠ [] → Index data lineSeparator = some ix →
        Seal L fresh publicKey (data.drop (ix + lineSeparator.length)) = Run.ret sealed →
        os.WriteFile w0.files f sealed = (files, some e) →
        createPW L os vis readsLong readsShort fresh f keyName publicKey w0
          = some (logPrint logPrefix e.text { w0 with files := files }, Run.fatal e.text)) ∧
      (∀ (data : Bytes) (ix : Nat) (m : String),
        vis (pwTemplate
          { Key := L.b32encode publicKey.val, KeyName := keyName, FileName := f,
            LineSeparator := lineSeparator, LongPassword := utf8 long,
            ShortPassword := utf8 short }) = Except.ok data →
        data ≠ [] → Index data lineSeparator = some ix →
        Seal L fresh publicKey (data.drop (ix + lineSeparator.length)) = Run.panic m →
        createPW L os vis readsLong readsShort fresh f keyName publicKey w0
          = some (w0, Run.panic m))) ∧
    -- seal-pw, reading a password file
    (∀ (f : Bytes) (e : OSError) (w0 : World F),
      os.ReadFile w0.files f = Except.error e →
      readPW L os privateKey f w0 = (logPrint logPrefix e.text w0, Run.fatal e.text)) := by
  have hout : (logPrint logPrefix (ascii "error decrypting " ++ file ++ ascii ": " ++ err)
      w).stdout = w.stdout := rfl
  have hfail : ∀ rest : List Bytes, catLoop L os privateKey (file :: rest) w
      = catLoop L os privateKey rest
          { logPrint logPrefix (ascii "error decrypting " ++ file ++ ascii ": " ++ err) w with
            stdout := w.stdout ++ ascii "\n" } := by
    intro rest
    simp only [catLoop, hread, hopen, List.append_nil, hout]
  have hgood : ∀ (file2 ctxt2 msg : Bytes) (rest : List Bytes) (w0 : World F),
      os.ReadFile w0.files file2 = Except.ok ctxt2 →
      Open L (some privateKey) ctxt2 = Run.ret (Except.ok msg) →
      catLoop L os privateKey (file2 :: rest) w0
        = catLoop L os privateKey rest { w0 with stdout := w0.stdout ++ ascii "\n" ++ msg } := by
    intro file2 ctxt2 msg rest w0 h1 h2
    simp only [catLoop, h1, h2]
  refine ⟨?_, ⟨?_, hfail args, hgood, ?_, ?_⟩, ⟨?_, ?_, ?_, ?_⟩, ?_, ?_, ?_, ?_⟩
  · intro pfx msg w0
    refine ⟨rfl, rfl, rfl, ?_⟩
    simp [logPrint, ascii_newline]
  · intro w0; simp [catLoop]
  · intro file2 ctxt2 msg h1 h2
    rw [hfail [file2]]
    exact (hgood file2 ctxt2 msg []
      { logPrint logPrefix (ascii "error decrypting " ++ file ++ ascii ": " ++ err) w with
        stdout := w.stdout ++ ascii "\n" } h1 h2).trans (by simp [catLoop])
  · intro file2 e rest w0 h1
    simp [catLoop, h1, logFatal]
  · simp [SealCat.catLoop, hread, hopen, logFatal]
  · intro w0; simp [SealCat.catLoop]
  · intro file2 ctxt2 msg rest w0 h1 h2
    simp only [SealCat.catLoop, h1, h2]
  · intro file2 e rest w0 h1
    simp [SealCat.catLoop, h1, logFatal]
  · intro vis fresh keyName publicKey i
    simp [SealEdit.editLoop, SealEdit.getContents, hread, hopen]
  · intro vis fresh keyName publicKey key i f rest w0
    refine ⟨SealEdit.editLoop_nil L os vis fresh keyName publicKey key i w0,
      SealEdit.editLoop_stops L os vis fresh keyName publicKey key i f rest w0, ?_, ?_⟩
    · intro e h1 h2
      simp [SealEdit.editLoop, SealEdit.getContents, h1, h2]
    · intro c hg
      refine ⟨?_, ?_, ?_, ?_⟩
      · intro e hv
        apply SealEdit.editLoop_editor_bad L os vis fresh keyName publicKey key i f c rest w0 _ _ hg
        · simp [SealEdit.editor, hv, logFatal]
        · simp
      · intro data hv hne hix
        have hlen : ¬ data.length = 0 := by
          intro h; exact hne (List.length_eq_zero.1 h)
        apply SealEdit.editLoop_editor_bad L os vis fresh keyName publicKey key i f c rest w0 _ _ hg
        · simp [SealEdit.editor, hv, SealEdit.saveEdited, hlen, hix, logFatal]
        · simp
      · intro data sealed ix files e hv hne hix hseal hwr
        have hlen : ¬ data.length = 0 := by
          intro h; exact hne (List.length_eq_zero.1 h)
        apply SealEdit.editLoop_editor_bad L os vis fresh keyName publicKey key i f c rest w0 _ _ hg
        · simp [SealEdit.editor, hv, SealEdit.saveEdited, hlen, hix, hseal, hwr, logFatal]
        · simp
      · intro data ix m hv hne hix hseal
        have hlen : ¬ data.length = 0 := by
          intro h; exact hne (List.length_eq_zero.1 h)
        apply SealEdit.editLoop_editor_bad L os vis fresh keyName publicKey key i f c rest w0 _ _ hg
        · simp [SealEdit.editor, hv, SealEdit.saveEdited, hlen, hix, hseal]
        · simp
  · intro vis readsLong readsShort fresh keyName f publicKey long short w0 hlong hshort
    refine ⟨?_, ?_, ?_, ?_⟩
    · intro e hv
      simp [createPW, hlong, hshort, hv, logFatal]
    · intro data hv hne hix
      have hlen : ¬ data.length = 0 := by
        intro h; exact hne (List.length_eq_zero.1 h)
      simp [createPW, hlong, hshort, hv, saveEdited, hlen, hix, logFatal]
    · intro data sealed ix files e hv hne hix hseal hwr
      have hlen : ¬ data.length = 0 := by
        intro h; exact hne (List.length_eq_zero.1 h)
      simp [createPW, hlong, hshort, hv, saveEdited, hlen, hix, hseal, hwr, logFatal]
    · intro data ix m hv hne hix hseal
      have hlen : ¬ data.length = 0 := by
        intro h; exact hne (List.length_eq_zero.1 h)
      simp [createPW, hlong, hshort, hv, saveEdited, hlen, hix, hseal]
  · intro f e w0 h1
    simp [readPW, h1, logFatal]

end SealPw

namespace SealPw

/-- Witness of the amended C10 on the example files, where `a` does not
decrypt and `b` does: seal-pw with both files logs the failure of `a` and
still prints `b`; seal-cat with both files ends fatally at `a`. -/
theorem failure_policy_per_tool_witness :
    (exampleOS.ReadFile (startWorld exampleFiles).files [97] = Except.ok brokenEnvelope ∧
     Open exampleLib (some zeroKey) brokenEnvelope
       = Run.ret (Except.error (ascii "decryption failed"))) ∧
    catLoop exampleLib exampleOS zeroKey [[97], [98]] (startWorld exampleFiles)
      = ({ logPrint logPrefix
             (ascii "error decrypting " ++ [97] ++ ascii ": " ++ ascii "decryption failed")
             (startWorld exampleFiles) with
           stdout := (startWorld exampleFiles).stdout ++ ascii "\n" ++ ascii "\n"
             ++ [104, 105, 10] },
         Run.ret ()) ∧
    SealCat.catLoop exampleLib exampleOS zeroKey [[97], [98]] (startWorld exampleFiles)
      = (logPrint SealCat.logPrefix
           (ascii "error decrypting " ++ [97] ++ ascii ": " ++ ascii "decryption failed")
           (startWorld exampleFiles),
         Run.fatal (ascii "error decrypting " ++ [97] ++ ascii ": " ++ ascii "decryption failed")) :=
  ⟨⟨rfl, rfl⟩,
   (failure_policy_per_tool exampleLib exampleOS zeroKey [97] brokenEnvelope
      (ascii "decryption failed") [[98]] (startWorld exampleFiles) rfl rfl).2.1.2.2.2.1
      [98] helloEnvelope [104, 105, 10] rfl rfl,
   (failure_policy_per_tool exampleLib exampleOS zeroKey [97] brokenEnvelope
      (ascii "decryption failed") [[98]] (startWorld exampleFiles) rfl rfl).2.2.1.1⟩

end SealPw
